import Mathlib

/-!
Verification development for the h2open-db water-delivery CRM: the order
lifecycle state machine and the audit ledger that tracks every bottle and
balance movement per customer.

The repository's `src/models` directory defines the persistent schema
(SQLAlchemy models): `Customer` (customer.py), `Order`/`OrderItem` (order.py),
`OrderAuditLog` (audit.py) and the status enumerations (enums.py).  Those are
embedded faithfully below.  Monetary values (`Numeric(12,2)` /
`DECIMAL(10,2)`, fixed-point with 2 fraction digits) are embedded as integers
counting cents, which represents every such value exactly.  Timestamp columns
(`created_at`, `updated_at`, `delivered_at`) play no role in the verified
properties beyond insertion order, which the ledger list order captures, so
they are omitted from the embedded records.

The operational components (Order State Machine, Ledger Entry Store, Balance
Projector, Correction/Reversal Handler) are not present in the repository
sources; they are modelled from the specification, and each such definition
is marked `Modelled from the spec:`.
-/

namespace H2Open

/-- Order delivery status, from `src/models/enums.py` (`OrderStatus`). -/
inductive OrderStatus where
  | PENDING
  | ASSIGNED
  | OUT_FOR_DELIVERY
  | DELIVERED
  | CANCELLED
deriving DecidableEq, Repr

/-- Customer account status, from `src/models/enums.py` (`AccountStatus`). -/
inductive AccountStatus where
  | ACTIVE
  | SUSPENDED
  | BANNED
deriving DecidableEq, Repr

/-- Audit-log action tag, from the comment on `OrderAuditLog.action` in
`src/models/audit.py`: 'DELIVERED', 'DELIVERY_REVERTED', 'CORRECTION',
'SOFT_DELETED'. -/
inductive AuditAction where
  | DELIVERED
  | DELIVERY_REVERTED
  | CORRECTION
  | SOFT_DELETED
deriving DecidableEq, Repr

/-- Ledger-relevant fields of `Customer`, from `src/models/customer.py`.
`account_balance` is `Numeric(12,2)`, embedded as cents. -/
structure Customer where
  id : Nat
  full_name : String
  bottles_in_hand : Int
  account_balance : Int
  status : AccountStatus
  is_deleted : Bool
deriving DecidableEq, Repr

/-- The `chk_bottles_reasonable` check constraint on the customers table,
from `src/models/customer.py` (`__table_args__`):
`bottles_in_hand BETWEEN -100 AND 10000`.  It is the only check constraint on
the table and does not mention `account_balance`. -/
def customerRowCheck (c : Customer) : Bool :=
  -100 ≤ c.bottles_in_hand && c.bottles_in_hand ≤ 10000

/-- A fresh customer row with the column defaults of `src/models/customer.py`:
`bottles_in_hand` defaults to 0, `account_balance` to `Decimal("0.00")`,
`status` to `ACTIVE`, `is_deleted` to `False`. -/
def mkCustomer (id : Nat) (name : String) : Customer :=
  { id := id
    full_name := name
    bottles_in_hand := 0
    account_balance := 0
    status := AccountStatus.ACTIVE
    is_deleted := false }

/-- Ledger-relevant fields of `Order`, from `src/models/order.py`.
`total_amount` is `Numeric(10,2)`, embedded as cents. -/
structure Order where
  id : Nat
  customer_id : Option Nat
  driver_id : Option Nat
  status : OrderStatus
  bottles_delivered : Int
  bottles_returned : Int
  total_amount : Int
  is_paid : Bool
  is_deleted : Bool
deriving DecidableEq, Repr

/-- A fresh order row with the column defaults of `src/models/order.py`:
`status` defaults to `OrderStatus.PENDING`, both bottle counters to 0,
`is_paid` and `is_deleted` to `False`. -/
def mkOrder (id : Nat) (cid : Option Nat) (total : Int) : Order :=
  { id := id
    customer_id := cid
    driver_id := none
    status := OrderStatus.PENDING
    bottles_delivered := 0
    bottles_returned := 0
    total_amount := total
    is_paid := false
    is_deleted := false }

/-- A ledger entry, from `OrderAuditLog` in `src/models/audit.py`.
`balance_delta` is `DECIMAL(10,2)`, embedded as cents.  `created_at` is
represented by the position in the ledger list (append order). -/
structure AuditEntry where
  id : Nat
  order_id : Nat
  customer_id : Option Nat
  action : AuditAction
  old_status : Option OrderStatus
  new_status : Option OrderStatus
  bottles_delta : Option Int
  balance_delta : Option Int
  details : Option String
deriving DecidableEq, Repr

/-- The persistent state the claims range over: the customers table, the
orders table and the append-ordered audit ledger, together with the next
auto-increment ids. -/
structure DBState where
  customers : List Customer
  orders : List Order
  ledger : List AuditEntry
  next_customer_id : Nat
  next_order_id : Nat
  next_entry_id : Nat
deriving DecidableEq, Repr

/-- The empty database. -/
def initState : DBState :=
  { customers := []
    orders := []
    ledger := []
    next_customer_id := 1
    next_order_id := 1
    next_entry_id := 1 }

/-- Errors of the error-handling taxonomy (spec §7). -/
inductive Err where
  | InvalidTransition
  | InvalidQuantity
  | ValidationError
  | OutOfRange
deriving DecidableEq, Repr

/-- First customer row with the given primary key (primary-key lookup). -/
def findCustomer (l : List Customer) (cid : Nat) : Option Customer :=
  match l with
  | [] => none
  | c :: rest => if c.id = cid then some c else findCustomer rest cid

/-- Replace the (first) customer row carrying `c.id` by `c` (row update by
primary key). -/
def updateCustomer (l : List Customer) (c : Customer) : List Customer :=
  match l with
  | [] => []
  | c0 :: rest => if c0.id = c.id then c :: rest else c0 :: updateCustomer rest c

/-- First order row with the given primary key (primary-key lookup). -/
def findOrder (l : List Order) (oid : Nat) : Option Order :=
  match l with
  | [] => none
  | o :: rest => if o.id = oid then some o else findOrder rest oid

/-- Replace the (first) order row carrying `o.id` by `o` (row update by
primary key). -/
def updateOrder (l : List Order) (o : Order) : List Order :=
  match l with
  | [] => []
  | o0 :: rest => if o0.id = o.id then o :: rest else o0 :: updateOrder rest o

/-- Sum of `bottles_delta` over the ledger entries of customer `cid`
(an absent delta contributes 0). -/
def bottlesSumFor (l : List AuditEntry) (cid : Nat) : Int :=
  match l with
  | [] => 0
  | e :: rest =>
      (if e.customer_id = some cid then e.bottles_delta.getD 0 else 0) +
        bottlesSumFor rest cid

/-- Sum of `balance_delta` over the ledger entries of customer `cid`. -/
def balanceSumFor (l : List AuditEntry) (cid : Nat) : Int :=
  match l with
  | [] => 0
  | e :: rest =>
      (if e.customer_id = some cid then e.balance_delta.getD 0 else 0) +
        balanceSumFor rest cid

/-- Sum of `bottles_delta` over the ledger entries of order `oid`: the net
bottle effect the order has posted so far. -/
def bottlesSumForOrder (l : List AuditEntry) (oid : Nat) : Int :=
  match l with
  | [] => 0
  | e :: rest =>
      (if e.order_id = oid then e.bottles_delta.getD 0 else 0) +
        bottlesSumForOrder rest oid

/-- Sum of `balance_delta` over the ledger entries of order `oid`. -/
def balanceSumForOrder (l : List AuditEntry) (oid : Nat) : Int :=
  match l with
  | [] => 0
  | e :: rest =>
      (if e.order_id = oid then e.balance_delta.getD 0 else 0) +
        balanceSumForOrder rest oid

/-- Latest ledger entry of order `oid` whose action is `DELIVERED`: the
original delivery entry a reversal negates. -/
def lastDeliveryEntry (l : List AuditEntry) (oid : Nat) : Option AuditEntry :=
  match l with
  | [] => none
  | e :: rest =>
      match lastDeliveryEntry rest oid with
      | some e' => some e'
      | none =>
          if e.order_id = oid ∧ e.action = AuditAction.DELIVERED then some e
          else none

/-- The ledger entry a successful delivery posts (§4.1): `bottles_delta =
bottlesDelivered - bottlesReturned`, `balance_delta` the collected payment. -/
def deliveryEntry (s : DBState) (oid : Nat) (o : Order) (bd br : Int)
    (pay : Option Int) : AuditEntry :=
  { id := s.next_entry_id
    order_id := oid
    customer_id := o.customer_id
    action := AuditAction.DELIVERED
    old_status := some o.status
    new_status := some OrderStatus.DELIVERED
    bottles_delta := some (bd - br)
    balance_delta := pay
    details := none }

/-- The order row as stored by a successful delivery. -/
def deliveredOrder (o : Order) (bd br : Int) (pay : Option Int) : Order :=
  { o with status := OrderStatus.DELIVERED
           bottles_delivered := bd
           bottles_returned := br
           is_paid := pay.isSome || o.is_paid }

/-- The ledger entry a reversal posts (§4.4): the exact negation of the
original delivery entry's deltas. -/
def revertEntry (s : DBState) (oid : Nat) (o : Order) (orig : AuditEntry)
    (reason : String) : AuditEntry :=
  { id := s.next_entry_id
    order_id := oid
    customer_id := o.customer_id
    action := AuditAction.DELIVERY_REVERTED
    old_status := some OrderStatus.DELIVERED
    new_status := some OrderStatus.ASSIGNED
    bottles_delta := orig.bottles_delta.map (fun d => -d)
    balance_delta := orig.balance_delta.map (fun d => -d)
    details := some reason }

/-- The ledger entry a correction posts (§4.4): only the difference between
the net effect already posted for the order and the new intended effect. -/
def correctionEntry (s : DBState) (oid : Nat) (o : Order) (nbd nbr npay : Int)
    (reason : String) : AuditEntry :=
  { id := s.next_entry_id
    order_id := oid
    customer_id := o.customer_id
    action := AuditAction.CORRECTION
    old_status := none
    new_status := none
    bottles_delta := some ((nbd - nbr) - bottlesSumForOrder s.ledger oid)
    balance_delta := some (npay - balanceSumForOrder s.ledger oid)
    details := some reason }

/-- The compensating ledger entry a soft-delete posts (§4.4): the negation
of the order's net posted effect. -/
def softDeleteEntry (s : DBState) (oid : Nat) (o : Order) (reason : String) :
    AuditEntry :=
  { id := s.next_entry_id
    order_id := oid
    customer_id := o.customer_id
    action := AuditAction.SOFT_DELETED
    old_status := some o.status
    new_status := some o.status
    bottles_delta := some (-(bottlesSumForOrder s.ledger oid))
    balance_delta := some (-(balanceSumForOrder s.ledger oid))
    details := some reason }

/-- Modelled from the spec: the Ledger Entry Store's `append(entry)` (§4.2),
whose implementation is not in the repository sources.  Fails with
`ValidationError` when `bottles_delta` and `balance_delta` are both absent or
when a referenced order or customer id is unknown; otherwise appends the
entry at the end of the ledger. -/
def appendEntry (s : DBState) (e : AuditEntry) : Except Err DBState :=
  if e.bottles_delta = none ∧ e.balance_delta = none then .error .ValidationError
  else if findOrder s.orders e.order_id = none then .error .ValidationError
  else
    match e.customer_id with
    | some cid =>
        if findCustomer s.customers cid = none then .error .ValidationError
        else .ok { s with ledger := s.ledger ++ [e] }
    | none => .ok { s with ledger := s.ledger ++ [e] }

/-- Modelled from the spec: the Balance Projector's `apply(entry)` (§4.3),
whose implementation is not in the repository sources.  Increments the
referenced customer's `bottles_in_hand` by `bottles_delta` and
`account_balance` by `balance_delta`; fails with `OutOfRange` when the
resulting bottle count would leave [-100, 10000] (the domain bound of
`chk_bottles_reasonable`).  An entry without a customer reference updates no
counters. -/
def applyEntry (s : DBState) (e : AuditEntry) : Except Err DBState :=
  match e.customer_id with
  | none => .ok s
  | some cid =>
      match findCustomer s.customers cid with
      | none => .error .ValidationError
      | some c =>
          if c.bottles_in_hand + e.bottles_delta.getD 0 < -100 ∨
              10000 < c.bottles_in_hand + e.bottles_delta.getD 0 then .error .OutOfRange
          else
            .ok { s with customers :=
              (updateCustomer s.customers
                { c with bottles_in_hand := c.bottles_in_hand + e.bottles_delta.getD 0,
                         account_balance := c.account_balance + e.balance_delta.getD 0 }) }

/-- Modelled from the spec: one atomic ledger write (§4.1, §5) — the ledger
append and the counter update succeed or fail together; a failure commits
nothing. -/
def postEntry (s : DBState) (e : AuditEntry) : Except Err DBState :=
  match appendEntry s e with
  | .error err => .error err
  | .ok s1 => applyEntry s1 e

/-- Modelled from the spec: creating a customer record; the new row carries
the column defaults of `src/models/customer.py`. -/
def createCustomer (s : DBState) (name : String) : DBState :=
  { s with customers := s.customers ++ [mkCustomer s.next_customer_id name],
           next_customer_id := s.next_customer_id + 1 }

/-- Modelled from the spec: creating an order (§3); the new row carries the
column defaults of `src/models/order.py`, in particular `status = PENDING`,
and respects `chk_total_positive` and the customer foreign key. -/
def createOrder (s : DBState) (cid : Option Nat) (total : Int) : Except Err DBState :=
  if total < 0 then .error .ValidationError
  else
    match cid with
    | some c =>
        if findCustomer s.customers c = none then .error .ValidationError
        else
          .ok { s with orders := s.orders ++ [mkOrder s.next_order_id cid total],
                       next_order_id := s.next_order_id + 1 }
    | none =>
        .ok { s with orders := s.orders ++ [mkOrder s.next_order_id cid total],
                     next_order_id := s.next_order_id + 1 }

/-- Modelled from the spec: the state machine's `assign(order, driver)`
(§4.1) — legal only from `PENDING`, fails with `InvalidTransition` if the
order is not `PENDING` or is soft-deleted. -/
def assign (s : DBState) (oid did : Nat) : Except Err DBState :=
  match findOrder s.orders oid with
  | none => .error .InvalidTransition
  | some o =>
      if o.is_deleted then .error .InvalidTransition
      else if o.status = OrderStatus.PENDING then
        .ok { s with orders :=
          updateOrder s.orders { o with status := .ASSIGNED, driver_id := some did } }
      else .error .InvalidTransition

/-- Modelled from the spec: the state machine's `dispatch(order)` (§4.1) —
legal only from `ASSIGNED`. -/
def dispatch (s : DBState) (oid : Nat) : Except Err DBState :=
  match findOrder s.orders oid with
  | none => .error .InvalidTransition
  | some o =>
      if o.is_deleted then .error .InvalidTransition
      else if o.status = OrderStatus.ASSIGNED then
        .ok { s with orders :=
          updateOrder s.orders { o with status := .OUT_FOR_DELIVERY } }
      else .error .InvalidTransition

/-- Modelled from the spec: the state machine's
`deliver(order, bottlesDelivered, bottlesReturned, paymentInfo)` (§4.1).
Input validation (`InvalidQuantity` for a negative bottle count, §7:
"rejected before any write") precedes the transition check; the delivery
posts one ledger entry with `bottles_delta = bottlesDelivered -
bottlesReturned` and, when payment was collected, a `balance_delta`; on
success the order's bottle counters are stored and the status becomes
`DELIVERED`.  `pay` is the collected payment in cents, `none` when no payment
was collected. -/
def deliver (s : DBState) (oid : Nat) (bd br : Int) (pay : Option Int) :
    Except Err DBState :=
  match findOrder s.orders oid with
  | none => .error .ValidationError
  | some o =>
      if bd < 0 ∨ br < 0 then .error .InvalidQuantity
      else if o.is_deleted then .error .InvalidTransition
      else if o.status = OrderStatus.ASSIGNED ∨ o.status = OrderStatus.OUT_FOR_DELIVERY then
        match postEntry s (deliveryEntry s oid o bd br pay) with
        | .error err => .error err
        | .ok s2 =>
            .ok { s2 with
                  orders := updateOrder s2.orders (deliveredOrder o bd br pay),
                  next_entry_id := s2.next_entry_id + 1 }
      else .error .InvalidTransition

/-- Modelled from the spec: the state machine's `cancel(order, reason)`
(§4.1) — legal from any non-terminal state, and rejected when the order has
already posted a ledger entry (cancellation only applies to orders with no
bottle/balance effect yet). -/
def cancel (s : DBState) (oid : Nat) (_reason : String) : Except Err DBState :=
  match findOrder s.orders oid with
  | none => .error .InvalidTransition
  | some o =>
      if o.is_deleted then .error .InvalidTransition
      else if o.status = OrderStatus.DELIVERED ∨ o.status = OrderStatus.CANCELLED then
        .error .InvalidTransition
      else if s.ledger.any (fun e => e.order_id = oid) then .error .InvalidTransition
      else .ok { s with orders := updateOrder s.orders { o with status := .CANCELLED } }

/-- Modelled from the spec: the Correction/Reversal Handler's
`revertDelivery(order, reason)` (§4.4) — legal only on a `DELIVERED` order
that has not itself been reverted (a reverted order is back in `ASSIGNED`);
posts one new ledger entry carrying the exact negation of the original
delivery entry's `bottles_delta` and `balance_delta`, tagged
`DELIVERY_REVERTED`, and transitions the order back to `ASSIGNED`. -/
def revertDelivery (s : DBState) (oid : Nat) (reason : String) :
    Except Err DBState :=
  match findOrder s.orders oid with
  | none => .error .InvalidTransition
  | some o =>
      if o.is_deleted then .error .InvalidTransition
      else if o.status = OrderStatus.DELIVERED then
        match lastDeliveryEntry s.ledger oid with
        | none => .error .InvalidTransition
        | some orig =>
            match postEntry s (revertEntry s oid o orig reason) with
            | .error err => .error err
            | .ok s2 =>
                .ok { s2 with
                      orders := updateOrder s2.orders { o with status := .ASSIGNED },
                      next_entry_id := s2.next_entry_id + 1 }
      else .error .InvalidTransition

/-- Modelled from the spec: the Correction/Reversal Handler's
`correct(order, newBottlesDelivered, newBottlesReturned, newPayment, reason)`
(§4.4) — computes the difference between the net effect the order has posted
so far and the new intended effect, and posts a single `CORRECTION` entry
carrying only that difference, never the full new value.  `npay` is the new
intended total payment in cents. -/
def correct (s : DBState) (oid : Nat) (nbd nbr npay : Int) (reason : String) :
    Except Err DBState :=
  match findOrder s.orders oid with
  | none => .error .InvalidTransition
  | some o =>
      if nbd < 0 ∨ nbr < 0 then .error .InvalidQuantity
      else if o.is_deleted then .error .InvalidTransition
      else if o.status = OrderStatus.DELIVERED then
        match postEntry s (correctionEntry s oid o nbd nbr npay reason) with
        | .error err => .error err
        | .ok s2 =>
            .ok { s2 with
                  orders := updateOrder s2.orders
                    { o with bottles_delivered := nbd, bottles_returned := nbr },
                  next_entry_id := s2.next_entry_id + 1 }
      else .error .InvalidTransition

/-- Modelled from the spec: the Correction/Reversal Handler's
`softDelete(order, reason)` (§4.4) — when the order has posted net ledger
effects they are first reversed by one `SOFT_DELETED` compensating entry,
then the soft-delete flag is set; a hard delete never happens. -/
def softDelete (s : DBState) (oid : Nat) (reason : String) : Except Err DBState :=
  match findOrder s.orders oid with
  | none => .error .InvalidTransition
  | some o =>
      if o.is_deleted then .error .InvalidTransition
      else if bottlesSumForOrder s.ledger oid = 0 ∧ balanceSumForOrder s.ledger oid = 0 then
        .ok { s with orders := updateOrder s.orders { o with is_deleted := true } }
      else
        match postEntry s (softDeleteEntry s oid o reason) with
        | .error err => .error err
        | .ok s2 =>
            .ok { s2 with
                  orders := updateOrder s2.orders { o with is_deleted := true },
                  next_entry_id := s2.next_entry_id + 1 }

/-- The write surface exposed to collaborators (§6): order lifecycle and
correction operations, plus record creation. -/
inductive Op where
  | createCustomer (name : String)
  | createOrder (cid : Option Nat) (total : Int)
  | assign (oid did : Nat)
  | dispatch (oid : Nat)
  | deliver (oid : Nat) (bd br : Int) (pay : Option Int)
  | cancel (oid : Nat) (reason : String)
  | revertDelivery (oid : Nat) (reason : String)
  | correct (oid : Nat) (nbd nbr npay : Int) (reason : String)
  | softDelete (oid : Nat) (reason : String)
deriving DecidableEq, Repr

/-- Execute one operation. -/
def exec (s : DBState) : Op → Except Err DBState
  | .createCustomer name => .ok (createCustomer s name)
  | .createOrder cid total => createOrder s cid total
  | .assign oid did => assign s oid did
  | .dispatch oid => dispatch s oid
  | .deliver oid bd br pay => deliver s oid bd br pay
  | .cancel oid r => cancel s oid r
  | .revertDelivery oid r => revertDelivery s oid r
  | .correct oid nbd nbr npay r => correct s oid nbd nbr npay r
  | .softDelete oid r => softDelete s oid r

/-- The state after attempting an operation: a failed operation mutates
nothing (§7 — errors are surfaced with no state mutated). -/
def run (s : DBState) (op : Op) : DBState :=
  match exec s op with
  | .ok s' => s'
  | .error _ => s

/-- One successful transition of the system. -/
def Step (s s' : DBState) : Prop := ∃ op, exec s op = .ok s'

/-- States reachable from the empty database through successful
operations. -/
inductive Reachable : DBState → Prop where
  | init : Reachable initState
  | step {s s' : DBState} : Reachable s → Step s s' → Reachable s'

/-- Zero or more successful transitions. -/
inductive Steps : DBState → DBState → Prop where
  | refl (s : DBState) : Steps s s
  | tail {s s' s'' : DBState} : Steps s s' → Step s' s'' → Steps s s''

/-- The global state invariant: customer primary keys are unique and below
the auto-increment counter, every ledger entry references an existing
customer, each customer's cached counters equal the ledger sums, and the
bottle counter respects `chk_bottles_reasonable`. -/
structure Inv (s : DBState) : Prop where
  custIdsNodup : (s.customers.map (fun c => c.id)).Nodup
  custIdsLt : ∀ c ∈ s.customers, c.id < s.next_customer_id
  ledgerCustKnown : ∀ e ∈ s.ledger, ∀ cid, e.customer_id = some cid →
      cid ∈ s.customers.map (fun c => c.id)
  orderCustKnown : ∀ o ∈ s.orders, ∀ cid, o.customer_id = some cid →
      cid ∈ s.customers.map (fun c => c.id)
  sumsBottles : ∀ c ∈ s.customers, c.bottles_in_hand = bottlesSumFor s.ledger c.id
  sumsBalance : ∀ c ∈ s.customers, c.account_balance = balanceSumFor s.ledger c.id
  bottlesLower : ∀ c ∈ s.customers, -100 ≤ c.bottles_in_hand
  bottlesUpper : ∀ c ∈ s.customers, c.bottles_in_hand ≤ 10000

/-- Example run (spec §8 scenario): a customer, an order of 25.00, a driver
assignment, then a delivery of 5 bottles with 25.00 collected. -/
def exS1 : DBState := createCustomer initState "Ada"

def exS2 : DBState := run exS1 (Op.createOrder (some 1) 2500)

def exS3 : DBState := run exS2 (Op.assign 1 7)

def exS4 : DBState := run exS3 (Op.deliver 1 5 0 (some 2500))

def exS5 : DBState := run exS4 (Op.correct 1 6 0 3000 "fix")

/-- The customer row of `exS4`: 5 bottles in hand, a 25.00 balance. -/
def adaDelivered : Customer :=
  { id := 1
    full_name := "Ada"
    bottles_in_hand := 5
    account_balance := 2500
    status := AccountStatus.ACTIVE
    is_deleted := false }

/-- A customer close to the 10000-bottle cap, for exercising `OutOfRange`. -/
def capCustomer : Customer :=
  { id := 1
    full_name := "Bea"
    bottles_in_hand := 9999
    account_balance := 0
    status := AccountStatus.ACTIVE
    is_deleted := false }

/-- An assigned order for `capCustomer`. -/
def capOrder : Order :=
  { id := 1
    customer_id := some 1
    driver_id := some 2
    status := OrderStatus.ASSIGNED
    bottles_delivered := 0
    bottles_returned := 0
    total_amount := 0
    is_paid := false
    is_deleted := false }

/-- A state in which delivering 5 bottles would push `capCustomer` to 10004
bottles, beyond the [-100, 10000] domain bound. -/
def capState : DBState :=
  { customers := [capCustomer]
    orders := [capOrder]
    ledger := []
    next_customer_id := 2
    next_order_id := 2
    next_entry_id := 1 }

/-- The order row of `exS3`/`exS4` before delivery: assigned to driver 7. -/
def assignedOrder : Order :=
  { id := 1
    customer_id := some 1
    driver_id := some 7
    status := OrderStatus.ASSIGNED
    bottles_delivered := 0
    bottles_returned := 0
    total_amount := 2500
    is_paid := false
    is_deleted := false }

/-- An entry carrying neither a bottle nor a balance delta (a meaningless
no-op entry, §4.2). -/
def noopEntry : AuditEntry :=
  { id := 1
    order_id := 1
    customer_id := none
    action := AuditAction.CORRECTION
    old_status := none
    new_status := none
    bottles_delta := none
    balance_delta := none
    details := none }

/-- An entry debiting an enormous balance (a billion units) while moving no
bottles: exercises the absence of any balance bound. -/
def hugeDebitEntry : AuditEntry :=
  { id := 1
    order_id := 1
    customer_id := some 1
    action := AuditAction.CORRECTION
    old_status := none
    new_status := none
    bottles_delta := some 0
    balance_delta := some (-100000000000)
    details := none }

@[simp] theorem bottlesSumFor_nil (cid : Nat) : bottlesSumFor [] cid = 0 := rfl

@[simp] theorem bottlesSumFor_cons (e : AuditEntry) (l : List AuditEntry) (cid : Nat) :
    bottlesSumFor (e :: l) cid =
      (if e.customer_id = some cid then e.bottles_delta.getD 0 else 0) +
        bottlesSumFor l cid := rfl

@[simp] theorem balanceSumFor_nil (cid : Nat) : balanceSumFor [] cid = 0 := rfl

@[simp] theorem balanceSumFor_cons (e : AuditEntry) (l : List AuditEntry) (cid : Nat) :
    balanceSumFor (e :: l) cid =
      (if e.customer_id = some cid then e.balance_delta.getD 0 else 0) +
        balanceSumFor l cid := rfl

@[simp] theorem bottlesSumForOrder_nil (oid : Nat) : bottlesSumForOrder [] oid = 0 := rfl

@[simp] theorem bottlesSumForOrder_cons (e : AuditEntry) (l : List AuditEntry) (oid : Nat) :
    bottlesSumForOrder (e :: l) oid =
      (if e.order_id = oid then e.bottles_delta.getD 0 else 0) +
        bottlesSumForOrder l oid := rfl

@[simp] theorem balanceSumForOrder_nil (oid : Nat) : balanceSumForOrder [] oid = 0 := rfl

@[simp] theorem balanceSumForOrder_cons (e : AuditEntry) (l : List AuditEntry) (oid : Nat) :
    balanceSumForOrder (e :: l) oid =
      (if e.order_id = oid then e.balance_delta.getD 0 else 0) +
        balanceSumForOrder l oid := rfl

theorem bottlesSumFor_append (l1 l2 : List AuditEntry) (cid : Nat) :
    bottlesSumFor (l1 ++ l2) cid = bottlesSumFor l1 cid + bottlesSumFor l2 cid := by
  induction l1 with
  | nil => simp
  | cons e rest ih => simp [ih]; ring

theorem balanceSumFor_append (l1 l2 : List AuditEntry) (cid : Nat) :
    balanceSumFor (l1 ++ l2) cid = balanceSumFor l1 cid + balanceSumFor l2 cid := by
  induction l1 with
  | nil => simp
  | cons e rest ih => simp [ih]; ring

theorem bottlesSumForOrder_append (l1 l2 : List AuditEntry) (oid : Nat) :
    bottlesSumForOrder (l1 ++ l2) oid =
      bottlesSumForOrder l1 oid + bottlesSumForOrder l2 oid := by
  induction l1 with
  | nil => simp
  | cons e rest ih => simp [ih]; ring

theorem balanceSumForOrder_append (l1 l2 : List AuditEntry) (oid : Nat) :
    balanceSumForOrder (l1 ++ l2) oid =
      balanceSumForOrder l1 oid + balanceSumForOrder l2 oid := by
  induction l1 with
  | nil => simp
  | cons e rest ih => simp [ih]; ring

theorem bottlesSumFor_eq_zero {l : List AuditEntry} {cid : Nat}
    (h : ∀ e ∈ l, e.customer_id ≠ some cid) : bottlesSumFor l cid = 0 := by
  induction l with
  | nil => simp
  | cons e rest ih =>
      have he := h e (List.mem_cons_self e rest)
      simp [he, ih fun e' he' => h e' (List.mem_cons_of_mem e he')]

theorem balanceSumFor_eq_zero {l : List AuditEntry} {cid : Nat}
    (h : ∀ e ∈ l, e.customer_id ≠ some cid) : balanceSumFor l cid = 0 := by
  induction l with
  | nil => simp
  | cons e rest ih =>
      have he := h e (List.mem_cons_self e rest)
      simp [he, ih fun e' he' => h e' (List.mem_cons_of_mem e he')]

theorem findCustomer_eq_some {l : List Customer} {cid : Nat} {c : Customer}
    (h : findCustomer l cid = some c) : c ∈ l ∧ c.id = cid := by
  induction l with
  | nil => simp [findCustomer] at h
  | cons c0 rest ih =>
      simp only [findCustomer] at h
      split at h
      · injection h with h1
        subst h1
        exact ⟨List.mem_cons_self _ _, by assumption⟩
      · obtain ⟨hmem, hid⟩ := ih h
        exact ⟨List.mem_cons_of_mem _ hmem, hid⟩

theorem findOrder_eq_some {l : List Order} {oid : Nat} {o : Order}
    (h : findOrder l oid = some o) : o ∈ l ∧ o.id = oid := by
  induction l with
  | nil => simp [findOrder] at h
  | cons o0 rest ih =>
      simp only [findOrder] at h
      split at h
      · injection h with h1
        subst h1
        exact ⟨List.mem_cons_self _ _, by assumption⟩
      · obtain ⟨hmem, hid⟩ := ih h
        exact ⟨List.mem_cons_of_mem _ hmem, hid⟩

theorem findCustomer_isSome_iff {l : List Customer} {cid : Nat} :
    (findCustomer l cid).isSome ↔ cid ∈ l.map (fun c => c.id) := by
  induction l with
  | nil => simp [findCustomer]
  | cons c0 rest ih =>
      simp only [findCustomer, List.map_cons, List.mem_cons]
      split
      · simp [*]
      · simp only [ih]
        constructor
        · exact Or.inr
        · rintro (h | h)
          · exact absurd h.symm (by assumption)
          · exact h

theorem findOrder_isSome_iff {l : List Order} {oid : Nat} :
    (findOrder l oid).isSome ↔ oid ∈ l.map (fun o => o.id) := by
  induction l with
  | nil => simp [findOrder]
  | cons o0 rest ih =>
      simp only [findOrder, List.map_cons, List.mem_cons]
      split
      · simp [*]
      · simp only [ih]
        constructor
        · exact Or.inr
        · rintro (h | h)
          · exact absurd h.symm (by assumption)
          · exact h

theorem updateCustomer_map_id (l : List Customer) (c : Customer) :
    (updateCustomer l c).map (fun x => x.id) = l.map (fun x => x.id) := by
  induction l with
  | nil => rfl
  | cons c0 rest ih =>
      simp only [updateCustomer]
      split
      · simp [*]
      · simp [ih]

theorem updateOrder_map_id (l : List Order) (o : Order) :
    (updateOrder l o).map (fun x => x.id) = l.map (fun x => x.id) := by
  induction l with
  | nil => rfl
  | cons o0 rest ih =>
      simp only [updateOrder]
      split
      · simp [*]
      · simp [ih]

theorem mem_updateCustomer {l : List Customer} {c x : Customer}
    (h : x ∈ updateCustomer l c) : x = c ∨ x ∈ l := by
  induction l with
  | nil => simp [updateCustomer] at h
  | cons c0 rest ih =>
      simp only [updateCustomer] at h
      split at h
      · rcases List.mem_cons.mp h with h1 | h1
        · exact Or.inl h1
        · exact Or.inr (List.mem_cons_of_mem _ h1)
      · rcases List.mem_cons.mp h with h1 | h1
        · exact Or.inr (h1 ▸ List.mem_cons_self _ _)
        · rcases ih h1 with h2 | h2
          · exact Or.inl h2
          · exact Or.inr (List.mem_cons_of_mem _ h2)

theorem mem_updateOrder {l : List Order} {o x : Order}
    (h : x ∈ updateOrder l o) : x = o ∨ x ∈ l := by
  induction l with
  | nil => simp [updateOrder] at h
  | cons o0 rest ih =>
      simp only [updateOrder] at h
      split at h
      · rcases List.mem_cons.mp h with h1 | h1
        · exact Or.inl h1
        · exact Or.inr (List.mem_cons_of_mem _ h1)
      · rcases List.mem_cons.mp h with h1 | h1
        · exact Or.inr (h1 ▸ List.mem_cons_self _ _)
        · rcases ih h1 with h2 | h2
          · exact Or.inl h2
          · exact Or.inr (List.mem_cons_of_mem _ h2)

theorem updateCustomer_spec {l : List Customer} {c' : Customer}
    (hnd : (l.map (fun x => x.id)).Nodup) :
    ∀ x ∈ updateCustomer l c', (x.id = c'.id → x = c') ∧ (x.id ≠ c'.id → x ∈ l) := by
  induction l with
  | nil => simp [updateCustomer]
  | cons c0 rest ih =>
      simp only [List.map_cons, List.nodup_cons] at hnd
      obtain ⟨hnotin, hnd'⟩ := hnd
      intro x hx
      simp only [updateCustomer] at hx
      split at hx
      · rcases List.mem_cons.mp hx with h1 | h1
        · subst h1
          exact ⟨fun _ => rfl, fun hne => absurd rfl hne⟩
        · refine ⟨fun hid => ?_, fun _ => List.mem_cons_of_mem _ h1⟩
          exfalso
          apply hnotin
          have : x.id ∈ rest.map (fun x => x.id) := List.mem_map_of_mem _ h1
          rw [hid] at this
          rw [show c0.id = c'.id from by assumption]
          exact this
      · rcases List.mem_cons.mp hx with h1 | h1
        · subst h1
          exact ⟨fun hid => absurd hid (by assumption), fun _ => List.mem_cons_self _ _⟩
        · obtain ⟨ha, hb⟩ := ih hnd' x h1
          exact ⟨ha, fun hne => List.mem_cons_of_mem _ (hb hne)⟩

theorem findCustomer_updateCustomer {l : List Customer} {cid : Nat} {c c' : Customer}
    (h : findCustomer l cid = some c) (h' : c'.id = cid) :
    findCustomer (updateCustomer l c') cid = some c' := by
  induction l with
  | nil => simp [findCustomer] at h
  | cons c0 rest ih =>
      simp only [findCustomer] at h
      by_cases h0 : c0.id = cid
      · simp only [updateCustomer]
        rw [if_pos (by rw [h0, h'])]
        simp [findCustomer, h']
      · rw [if_neg h0] at h
        simp only [updateCustomer]
        rw [if_neg (by rw [h']; exact h0)]
        simp only [findCustomer]
        rw [if_neg h0]
        exact ih h

theorem findOrder_updateOrder {l : List Order} {oid : Nat} {o o' : Order}
    (h : findOrder l oid = some o) (h' : o'.id = oid) :
    findOrder (updateOrder l o') oid = some o' := by
  induction l with
  | nil => simp [findOrder] at h
  | cons o0 rest ih =>
      simp only [findOrder] at h
      by_cases h0 : o0.id = oid
      · simp only [updateOrder]
        rw [if_pos (by rw [h0, h'])]
        simp [findOrder, h']
      · rw [if_neg h0] at h
        simp only [updateOrder]
        rw [if_neg (by rw [h']; exact h0)]
        simp only [findOrder]
        rw [if_neg h0]
        exact ih h

theorem Inv_init : Inv initState := by
  constructor <;> simp [initState]

/-- An operation that leaves the customers table, the ledger and the
customer id counter untouched preserves the invariant. -/
theorem Inv_transfer {s t : DBState} (hinv : Inv s)
    (hc : t.customers = s.customers) (hl : t.ledger = s.ledger)
    (hn : t.next_customer_id = s.next_customer_id)
    (ho : ∀ o ∈ t.orders, ∀ cid, o.customer_id = some cid →
        cid ∈ s.customers.map (fun c => c.id)) : Inv t := by
  constructor
  · rw [hc]; exact hinv.custIdsNodup
  · rw [hc, hn]; exact hinv.custIdsLt
  · rw [hc, hl]; exact hinv.ledgerCustKnown
  · rw [hc]; exact ho
  · rw [hc, hl]; exact hinv.sumsBottles
  · rw [hc, hl]; exact hinv.sumsBalance
  · rw [hc]; exact hinv.bottlesLower
  · rw [hc]; exact hinv.bottlesUpper

theorem appendEntry_ok_inv {s s1 : DBState} {e : AuditEntry}
    (h : appendEntry s e = .ok s1) :
    s1 = { s with ledger := s.ledger ++ [e] } ∧
    ¬(e.bottles_delta = none ∧ e.balance_delta = none) ∧
    findOrder s.orders e.order_id ≠ none ∧
    (∀ cid, e.customer_id = some cid → findCustomer s.customers cid ≠ none) := by
  unfold appendEntry at h
  split at h
  · exact Except.noConfusion h
  next hno =>
    split at h
    · exact Except.noConfusion h
    next hord =>
      split at h
      next cid hcid =>
        split at h
        · exact Except.noConfusion h
        next hcust =>
          injection h with h1
          refine ⟨h1.symm, hno, hord, ?_⟩
          intro cid' hcid'
          rw [hcid] at hcid'
          injection hcid' with h2
          rw [← h2]
          exact hcust
      next hcid =>
        injection h with h1
        refine ⟨h1.symm, hno, hord, ?_⟩
        intro cid' hcid'
        rw [hcid] at hcid'
        exact Option.noConfusion hcid'

theorem applyEntry_ok_inv {s s2 : DBState} {e : AuditEntry}
    (h : applyEntry s e = .ok s2) :
    (e.customer_id = none ∧ s2 = s) ∨
    (∃ cid c, e.customer_id = some cid ∧ findCustomer s.customers cid = some c ∧
      -100 ≤ c.bottles_in_hand + e.bottles_delta.getD 0 ∧
      c.bottles_in_hand + e.bottles_delta.getD 0 ≤ 10000 ∧
      s2 = { s with customers :=
        (updateCustomer s.customers
          { c with bottles_in_hand := c.bottles_in_hand + e.bottles_delta.getD 0,
                   account_balance := c.account_balance + e.balance_delta.getD 0 }) }) := by
  unfold applyEntry at h
  split at h
  next hcid =>
    injection h with h1
    exact Or.inl ⟨hcid, h1.symm⟩
  next cid hcid =>
    split at h
    · exact Except.noConfusion h
    next c hc =>
      split at h
      · exact Except.noConfusion h
      next hrange =>
        push_neg at hrange
        injection h with h1
        exact Or.inr ⟨cid, c, hcid, hc, hrange.1, hrange.2, h1.symm⟩

theorem postEntry_ok_inv {s s2 : DBState} {e : AuditEntry}
    (h : postEntry s e = .ok s2) :
    appendEntry s e = .ok { s with ledger := s.ledger ++ [e] } ∧
    applyEntry { s with ledger := s.ledger ++ [e] } e = .ok s2 := by
  unfold postEntry at h
  split at h
  · exact Except.noConfusion h
  next s1 heq =>
    have h1 := (appendEntry_ok_inv heq).1
    subst h1
    exact ⟨heq, h⟩

/-- State components a posted entry leaves untouched, and the ledger
extension it performs. -/
theorem postEntry_frame {s s2 : DBState} {e : AuditEntry}
    (h : postEntry s e = .ok s2) :
    s2.ledger = s.ledger ++ [e] ∧ s2.orders = s.orders ∧
    s2.next_customer_id = s.next_customer_id ∧
    s2.next_order_id = s.next_order_id ∧ s2.next_entry_id = s.next_entry_id := by
  obtain ⟨_, happly⟩ := postEntry_ok_inv h
  rcases applyEntry_ok_inv happly with ⟨_, rfl⟩ | ⟨cid, c, _, _, _, _, rfl⟩ <;> simp

/-- Posting one entry atomically (ledger append plus counter update)
preserves the invariant: the counters move by exactly the deltas that entered
the ledger. -/
theorem postEntry_inv {s s2 : DBState} {e : AuditEntry} (hinv : Inv s)
    (h : postEntry s e = .ok s2) : Inv s2 := by
  obtain ⟨happ, happly⟩ := postEntry_ok_inv h
  rcases applyEntry_ok_inv happly with ⟨hnone, rfl⟩ | ⟨cid, c, hcid, hfc, hlo, hhi, rfl⟩
  · constructor
    · exact hinv.custIdsNodup
    · exact hinv.custIdsLt
    · intro e' he' cid' hcid'
      rcases List.mem_append.mp he' with h1 | h1
      · exact hinv.ledgerCustKnown e' h1 cid' hcid'
      · rw [List.mem_singleton] at h1
        subst h1
        rw [hnone] at hcid'
        exact Option.noConfusion hcid'
    · exact hinv.orderCustKnown
    · intro c hc
      show c.bottles_in_hand = bottlesSumFor (s.ledger ++ [e]) c.id
      rw [bottlesSumFor_append, ← hinv.sumsBottles c hc]
      simp [hnone]
    · intro c hc
      show c.account_balance = balanceSumFor (s.ledger ++ [e]) c.id
      rw [balanceSumFor_append, ← hinv.sumsBalance c hc]
      simp [hnone]
    · exact hinv.bottlesLower
    · exact hinv.bottlesUpper
  · obtain ⟨hcmem, hcId⟩ := findCustomer_eq_some hfc
    constructor
    · show ((updateCustomer s.customers _).map (fun x => x.id)).Nodup
      rw [updateCustomer_map_id]
      exact hinv.custIdsNodup
    · intro x hx
      rcases mem_updateCustomer hx with h1 | h1
      · subst h1
        exact hinv.custIdsLt c hcmem
      · exact hinv.custIdsLt x h1
    · intro e' he' cid' hcid'
      show cid' ∈ (updateCustomer s.customers _).map (fun x => x.id)
      rw [updateCustomer_map_id]
      rcases List.mem_append.mp he' with h1 | h1
      · exact hinv.ledgerCustKnown e' h1 cid' hcid'
      · rw [List.mem_singleton] at h1
        subst h1
        rw [hcid] at hcid'
        injection hcid' with h2
        subst h2
        exact List.mem_map.mpr ⟨c, hcmem, hcId⟩
    · intro o' ho' cid' hcid'
      show cid' ∈ (updateCustomer s.customers _).map (fun x => x.id)
      rw [updateCustomer_map_id]
      exact hinv.orderCustKnown o' ho' cid' hcid'
    · intro x hx
      obtain ⟨hEq, hNe⟩ := updateCustomer_spec hinv.custIdsNodup x hx
      by_cases hid : x.id =
          (Customer.mk c.id c.full_name (c.bottles_in_hand + e.bottles_delta.getD 0)
            (c.account_balance + e.balance_delta.getD 0) c.status c.is_deleted).id
      · have hx' := hEq hid
        subst hx'
        show c.bottles_in_hand + e.bottles_delta.getD 0 =
          bottlesSumFor (s.ledger ++ [e]) c.id
        rw [bottlesSumFor_append, ← hinv.sumsBottles c hcmem]
        have : e.customer_id = some c.id := by rw [hcid, hcId]
        simp [this]
      · have hxold := hNe hid
        show x.bottles_in_hand = bottlesSumFor (s.ledger ++ [e]) x.id
        rw [bottlesSumFor_append, ← hinv.sumsBottles x hxold]
        have : ¬(e.customer_id = some x.id) := by
          rw [hcid]
          intro hx2
          injection hx2 with hx3
          exact hid (by simp [← hx3, hcId])
        simp [this]
    · intro x hx
      obtain ⟨hEq, hNe⟩ := updateCustomer_spec hinv.custIdsNodup x hx
      by_cases hid : x.id =
          (Customer.mk c.id c.full_name (c.bottles_in_hand + e.bottles_delta.getD 0)
            (c.account_balance + e.balance_delta.getD 0) c.status c.is_deleted).id
      · have hx' := hEq hid
        subst hx'
        show c.account_balance + e.balance_delta.getD 0 =
          balanceSumFor (s.ledger ++ [e]) c.id
        rw [balanceSumFor_append, ← hinv.sumsBalance c hcmem]
        have : e.customer_id = some c.id := by rw [hcid, hcId]
        simp [this]
      · have hxold := hNe hid
        show x.account_balance = balanceSumFor (s.ledger ++ [e]) x.id
        rw [balanceSumFor_append, ← hinv.sumsBalance x hxold]
        have : ¬(e.customer_id = some x.id) := by
          rw [hcid]
          intro hx2
          injection hx2 with hx3
          exact hid (by simp [← hx3, hcId])
        simp [this]
    · intro x hx
      obtain ⟨hEq, hNe⟩ := updateCustomer_spec hinv.custIdsNodup x hx
      by_cases hid : x.id =
          (Customer.mk c.id c.full_name (c.bottles_in_hand + e.bottles_delta.getD 0)
            (c.account_balance + e.balance_delta.getD 0) c.status c.is_deleted).id
      · have hx' := hEq hid
        subst hx'
        exact hlo
      · exact hinv.bottlesLower x (hNe hid)
    · intro x hx
      obtain ⟨hEq, hNe⟩ := updateCustomer_spec hinv.custIdsNodup x hx
      by_cases hid : x.id =
          (Customer.mk c.id c.full_name (c.bottles_in_hand + e.bottles_delta.getD 0)
            (c.account_balance + e.balance_delta.getD 0) c.status c.is_deleted).id
      · have hx' := hEq hid
        subst hx'
        exact hhi
      · exact hinv.bottlesUpper x (hNe hid)

theorem createCustomer_inv {s : DBState} (hinv : Inv s) (name : String) :
    Inv (createCustomer s name) := by
  have hnotmem : s.next_customer_id ∉ s.customers.map (fun c => c.id) := by
    intro hmem
    obtain ⟨c, hc, hid⟩ := List.mem_map.mp hmem
    exact Nat.ne_of_lt (hinv.custIdsLt c hc) hid
  have hledger : ∀ e ∈ s.ledger, e.customer_id ≠ some s.next_customer_id := by
    intro e he heq
    exact hnotmem (hinv.ledgerCustKnown e he _ heq)
  constructor
  · show ((s.customers ++ [mkCustomer s.next_customer_id name]).map (fun c => c.id)).Nodup
    rw [List.map_append]
    refine List.Nodup.append hinv.custIdsNodup (by simp) ?_
    intro a ha hb
    simp [mkCustomer] at hb
    subst hb
    exact hnotmem ha
  · intro x hx
    rcases List.mem_append.mp hx with h1 | h1
    · exact Nat.lt_succ_of_lt (hinv.custIdsLt x h1)
    · rw [List.mem_singleton] at h1
      subst h1
      exact Nat.lt_succ_self _
  · intro e he cid hcid
    show cid ∈ (s.customers ++ [mkCustomer s.next_customer_id name]).map (fun c => c.id)
    rw [List.map_append]
    exact List.mem_append_left _ (hinv.ledgerCustKnown e he cid hcid)
  · intro o ho cid hcid
    show cid ∈ (s.customers ++ [mkCustomer s.next_customer_id name]).map (fun c => c.id)
    rw [List.map_append]
    exact List.mem_append_left _ (hinv.orderCustKnown o ho cid hcid)
  · intro x hx
    rcases List.mem_append.mp hx with h1 | h1
    · exact hinv.sumsBottles x h1
    · rw [List.mem_singleton] at h1
      subst h1
      show (mkCustomer s.next_customer_id name).bottles_in_hand =
        bottlesSumFor s.ledger (mkCustomer s.next_customer_id name).id
      rw [show (mkCustomer s.next_customer_id name).id = s.next_customer_id from rfl,
        bottlesSumFor_eq_zero hledger]
      rfl
  · intro x hx
    rcases List.mem_append.mp hx with h1 | h1
    · exact hinv.sumsBalance x h1
    · rw [List.mem_singleton] at h1
      subst h1
      show (mkCustomer s.next_customer_id name).account_balance =
        balanceSumFor s.ledger (mkCustomer s.next_customer_id name).id
      rw [show (mkCustomer s.next_customer_id name).id = s.next_customer_id from rfl,
        balanceSumFor_eq_zero hledger]
      rfl
  · intro x hx
    rcases List.mem_append.mp hx with h1 | h1
    · exact hinv.bottlesLower x h1
    · rw [List.mem_singleton] at h1
      subst h1
      show (-100 : Int) ≤ 0
      decide
  · intro x hx
    rcases List.mem_append.mp hx with h1 | h1
    · exact hinv.bottlesUpper x h1
    · rw [List.mem_singleton] at h1
      subst h1
      show (0 : Int) ≤ 10000
      decide

/-- Posting an entry never changes the set (or order) of customer primary
keys. -/
theorem postEntry_customers_ids {s s2 : DBState} {e : AuditEntry}
    (h : postEntry s e = .ok s2) :
    s2.customers.map (fun c => c.id) = s.customers.map (fun c => c.id) := by
  obtain ⟨-, happly⟩ := postEntry_ok_inv h
  rcases applyEntry_ok_inv happly with ⟨-, rfl⟩ | ⟨cid, c, -, -, -, -, rfl⟩
  · rfl
  · exact updateCustomer_map_id _ _

theorem lastDeliveryEntry_append (l : List AuditEntry) (e : AuditEntry) (oid : Nat) :
    lastDeliveryEntry (l ++ [e]) oid =
      if e.order_id = oid ∧ e.action = AuditAction.DELIVERED then some e
      else lastDeliveryEntry l oid := by
  induction l with
  | nil => simp [lastDeliveryEntry]
  | cons x rest ih =>
      have ih' : lastDeliveryEntry (rest.append [e]) oid =
          if e.order_id = oid ∧ e.action = AuditAction.DELIVERED then some e
          else lastDeliveryEntry rest oid := ih
      by_cases hc : e.order_id = oid ∧ e.action = AuditAction.DELIVERED
      · simp only [List.cons_append, lastDeliveryEntry]
        rw [ih', if_pos hc, if_pos hc]
      · simp only [List.cons_append, lastDeliveryEntry]
        rw [ih', if_neg hc, if_neg hc]

/-- Every successful operation preserves the invariant. -/
theorem exec_inv {s s' : DBState} {op : Op} (hinv : Inv s)
    (h : exec s op = .ok s') : Inv s' := by
  cases op with
  | createCustomer name =>
      simp only [exec] at h
      injection h with h1
      subst h1
      exact createCustomer_inv hinv name
  | createOrder cid total =>
      simp only [exec] at h
      unfold createOrder at h
      split at h
      · exact Except.noConfusion h
      · split at h
        next c' =>
          split at h
          · exact Except.noConfusion h
          next hfc =>
            injection h with h1
            subst h1
            refine Inv_transfer hinv rfl rfl rfl ?_
            intro x hx cid' hcid'
            rcases List.mem_append.mp hx with h1 | h1
            · exact hinv.orderCustKnown x h1 cid' hcid'
            · rw [List.mem_singleton] at h1
              subst h1
              have h2 : some c' = some cid' := hcid'
              injection h2 with h3
              subst h3
              rw [← findCustomer_isSome_iff]
              exact Option.ne_none_iff_isSome.mp hfc
        next =>
          injection h with h1
          subst h1
          refine Inv_transfer hinv rfl rfl rfl ?_
          intro x hx cid' hcid'
          rcases List.mem_append.mp hx with h1 | h1
          · exact hinv.orderCustKnown x h1 cid' hcid'
          · rw [List.mem_singleton] at h1
            subst h1
            exact Option.noConfusion hcid'
  | assign oid did =>
      simp only [exec] at h
      unfold assign at h
      split at h
      · exact Except.noConfusion h
      next o hfo =>
        split at h
        · exact Except.noConfusion h
        · split at h
          · injection h with h1
            subst h1
            refine Inv_transfer hinv rfl rfl rfl ?_
            intro x hx cid' hcid'
            rcases mem_updateOrder hx with h1 | h1
            · subst h1
              exact hinv.orderCustKnown o (findOrder_eq_some hfo).1 cid' hcid'
            · exact hinv.orderCustKnown x h1 cid' hcid'
          · exact Except.noConfusion h
  | dispatch oid =>
      simp only [exec] at h
      unfold dispatch at h
      split at h
      · exact Except.noConfusion h
      next o hfo =>
        split at h
        · exact Except.noConfusion h
        · split at h
          · injection h with h1
            subst h1
            refine Inv_transfer hinv rfl rfl rfl ?_
            intro x hx cid' hcid'
            rcases mem_updateOrder hx with h1 | h1
            · subst h1
              exact hinv.orderCustKnown o (findOrder_eq_some hfo).1 cid' hcid'
            · exact hinv.orderCustKnown x h1 cid' hcid'
          · exact Except.noConfusion h
  | deliver oid bd br pay =>
      simp only [exec] at h
      unfold deliver at h
      split at h
      · exact Except.noConfusion h
      next o hfo =>
        split at h
        · exact Except.noConfusion h
        · split at h
          · exact Except.noConfusion h
          · split at h
            · split at h
              · exact Except.noConfusion h
              next s2 hpost =>
                injection h with h1
                subst h1
                refine Inv_transfer (postEntry_inv hinv hpost) rfl rfl rfl ?_
                intro x hx cid' hcid'
                rw [postEntry_customers_ids hpost]
                rw [(postEntry_frame hpost).2.1] at hx
                rcases mem_updateOrder hx with h1 | h1
                · subst h1
                  exact hinv.orderCustKnown o (findOrder_eq_some hfo).1 cid' hcid'
                · exact hinv.orderCustKnown x h1 cid' hcid'
            · exact Except.noConfusion h
  | cancel oid reason =>
      simp only [exec] at h
      unfold cancel at h
      split at h
      · exact Except.noConfusion h
      next o hfo =>
        split at h
        · exact Except.noConfusion h
        · split at h
          · exact Except.noConfusion h
          · split at h
            · exact Except.noConfusion h
            · injection h with h1
              subst h1
              refine Inv_transfer hinv rfl rfl rfl ?_
              intro x hx cid' hcid'
              rcases mem_updateOrder hx with h1 | h1
              · subst h1
                exact hinv.orderCustKnown o (findOrder_eq_some hfo).1 cid' hcid'
              · exact hinv.orderCustKnown x h1 cid' hcid'
  | revertDelivery oid reason =>
      simp only [exec] at h
      unfold revertDelivery at h
      split at h
      · exact Except.noConfusion h
      next o hfo =>
        split at h
        · exact Except.noConfusion h
        · split at h
          · split at h
            · exact Except.noConfusion h
            · split at h
              · exact Except.noConfusion h
              next s2 hpost =>
                injection h with h1
                subst h1
                refine Inv_transfer (postEntry_inv hinv hpost) rfl rfl rfl ?_
                intro x hx cid' hcid'
                rw [postEntry_customers_ids hpost]
                rw [(postEntry_frame hpost).2.1] at hx
                rcases mem_updateOrder hx with h1 | h1
                · subst h1
                  exact hinv.orderCustKnown o (findOrder_eq_some hfo).1 cid' hcid'
                · exact hinv.orderCustKnown x h1 cid' hcid'
          · exact Except.noConfusion h
  | correct oid nbd nbr npay reason =>
      simp only [exec] at h
      unfold correct at h
      split at h
      · exact Except.noConfusion h
      next o hfo =>
        split at h
        · exact Except.noConfusion h
        · split at h
          · exact Except.noConfusion h
          · split at h
            · split at h
              · exact Except.noConfusion h
              next s2 hpost =>
                injection h with h1
                subst h1
                refine Inv_transfer (postEntry_inv hinv hpost) rfl rfl rfl ?_
                intro x hx cid' hcid'
                rw [postEntry_customers_ids hpost]
                rw [(postEntry_frame hpost).2.1] at hx
                rcases mem_updateOrder hx with h1 | h1
                · subst h1
                  exact hinv.orderCustKnown o (findOrder_eq_some hfo).1 cid' hcid'
                · exact hinv.orderCustKnown x h1 cid' hcid'
            · exact Except.noConfusion h
  | softDelete oid reason =>
      simp only [exec] at h
      unfold softDelete at h
      split at h
      · exact Except.noConfusion h
      next o hfo =>
        split at h
        · exact Except.noConfusion h
        · split at h
          · injection h with h1
            subst h1
            refine Inv_transfer hinv rfl rfl rfl ?_
            intro x hx cid' hcid'
            rcases mem_updateOrder hx with h1 | h1
            · subst h1
              exact hinv.orderCustKnown o (findOrder_eq_some hfo).1 cid' hcid'
            · exact hinv.orderCustKnown x h1 cid' hcid'
          · split at h
            · exact Except.noConfusion h
            next s2 hpost =>
              injection h with h1
              subst h1
              refine Inv_transfer (postEntry_inv hinv hpost) rfl rfl rfl ?_
              intro x hx cid' hcid'
              rw [postEntry_customers_ids hpost]
              rw [(postEntry_frame hpost).2.1] at hx
              rcases mem_updateOrder hx with h1 | h1
              · subst h1
                exact hinv.orderCustKnown o (findOrder_eq_some hfo).1 cid' hcid'
              · exact hinv.orderCustKnown x h1 cid' hcid'


/-- A failed operation mutates nothing (§7). -/
theorem run_eq_of_error {s : DBState} {op : Op} {err : Err}
    (h : exec s op = .error err) : run s op = s := by
  unfold run
  rw [h]

/-- Posting applies the guards before committing: when it succeeds, the
append and the counter update both happened; helper showing it succeeds
whenever its guards hold. -/
theorem postEntry_succeeds {s : DBState} {e : AuditEntry}
    (h1 : e.bottles_delta ≠ none ∨ e.balance_delta ≠ none)
    (h2 : findOrder s.orders e.order_id ≠ none)
    (h3 : ∀ cid, e.customer_id = some cid →
        ∃ c, findCustomer s.customers cid = some c ∧
          -100 ≤ c.bottles_in_hand + e.bottles_delta.getD 0 ∧
          c.bottles_in_hand + e.bottles_delta.getD 0 ≤ 10000) :
    ∃ s2, postEntry s e = .ok s2 := by
  have happ : appendEntry s e = .ok { s with ledger := s.ledger ++ [e] } := by
    unfold appendEntry
    rw [if_neg (by rcases h1 with h | h
                   · exact fun hc => h hc.1
                   · exact fun hc => h hc.2)]
    rw [if_neg h2]
    cases hcid : e.customer_id with
    | none => rfl
    | some cid =>
        obtain ⟨c, hfc, -, -⟩ := h3 cid hcid
        dsimp only
        rw [if_neg (by rw [hfc]; exact fun hx => Option.noConfusion hx)]
  have happly : ∃ s2, applyEntry { s with ledger := s.ledger ++ [e] } e = .ok s2 := by
    unfold applyEntry
    cases hcid : e.customer_id with
    | none => exact ⟨_, rfl⟩
    | some cid =>
        obtain ⟨c, hfc, hlo, hhi⟩ := h3 cid hcid
        dsimp only
        rw [show findCustomer ({ s with ledger := s.ledger ++ [e] } : DBState).customers cid
            = some c from hfc]
        dsimp only
        rw [if_neg (by
          intro hor
          rcases hor with hx | hx
          · exact absurd hlo (not_le.mpr hx)
          · exact absurd hhi (not_le.mpr hx))]
        exact ⟨_, rfl⟩
  obtain ⟨s2, happly⟩ := happly
  refine ⟨s2, ?_⟩
  unfold postEntry
  rw [happ]
  exact happly

/-- Inversion of a successful delivery. -/
theorem deliver_ok_inv {s s1 : DBState} {oid : Nat} {bd br : Int} {pay : Option Int}
    (h : deliver s oid bd br pay = .ok s1) :
    ∃ o s2, findOrder s.orders oid = some o ∧
      ¬(bd < 0 ∨ br < 0) ∧ o.is_deleted = false ∧
      (o.status = OrderStatus.ASSIGNED ∨ o.status = OrderStatus.OUT_FOR_DELIVERY) ∧
      postEntry s (deliveryEntry s oid o bd br pay) = .ok s2 ∧
      s1 = { s2 with orders := updateOrder s2.orders (deliveredOrder o bd br pay),
                     next_entry_id := s2.next_entry_id + 1 } := by
  unfold deliver at h
  split at h
  · exact Except.noConfusion h
  next o hfo =>
    split at h
    · exact Except.noConfusion h
    next hq =>
      split at h
      · exact Except.noConfusion h
      next hdel =>
        split at h
        next hst =>
          split at h
          · exact Except.noConfusion h
          next s2 hpost =>
            injection h with h1
            exact ⟨o, s2, hfo, hq, by simpa using hdel, hst, hpost, h1.symm⟩
        · exact Except.noConfusion h

/-- Inversion of a successful correction. -/
theorem correct_ok_inv {s s1 : DBState} {oid : Nat} {nbd nbr npay : Int} {r : String}
    (h : correct s oid nbd nbr npay r = .ok s1) :
    ∃ o s2, findOrder s.orders oid = some o ∧
      ¬(nbd < 0 ∨ nbr < 0) ∧ o.is_deleted = false ∧
      o.status = OrderStatus.DELIVERED ∧
      postEntry s (correctionEntry s oid o nbd nbr npay r) = .ok s2 ∧
      s1 = { s2 with orders := (updateOrder s2.orders
                       { o with bottles_delivered := nbd, bottles_returned := nbr }),
                     next_entry_id := s2.next_entry_id + 1 } := by
  unfold correct at h
  split at h
  · exact Except.noConfusion h
  next o hfo =>
    split at h
    · exact Except.noConfusion h
    next hq =>
      split at h
      · exact Except.noConfusion h
      next hdel =>
        split at h
        next hst =>
          split at h
          · exact Except.noConfusion h
          next s2 hpost =>
            injection h with h1
            exact ⟨o, s2, hfo, hq, by simpa using hdel, hst, hpost, h1.symm⟩
        · exact Except.noConfusion h

/-- Every successful operation only ever appends to the ledger. -/
theorem exec_ledger_extends {s s' : DBState} {op : Op}
    (h : exec s op = .ok s') : ∃ t, s'.ledger = s.ledger ++ t := by
  cases op with
  | createCustomer name =>
      simp only [exec] at h
      injection h with h1
      subst h1
      exact ⟨[], by simp [createCustomer]⟩
  | createOrder cid total =>
      simp only [exec] at h
      unfold createOrder at h
      split at h
      · exact Except.noConfusion h
      · split at h
        next c' =>
          split at h
          · exact Except.noConfusion h
          · injection h with h1
            subst h1
            exact ⟨[], by simp⟩
        next =>
          injection h with h1
          subst h1
          exact ⟨[], by simp⟩
  | assign oid did =>
      simp only [exec] at h
      unfold assign at h
      split at h
      · exact Except.noConfusion h
      next o hfo =>
        split at h
        · exact Except.noConfusion h
        · split at h
          · injection h with h1
            subst h1
            exact ⟨[], by simp⟩
          · exact Except.noConfusion h
  | dispatch oid =>
      simp only [exec] at h
      unfold dispatch at h
      split at h
      · exact Except.noConfusion h
      next o hfo =>
        split at h
        · exact Except.noConfusion h
        · split at h
          · injection h with h1
            subst h1
            exact ⟨[], by simp⟩
          · exact Except.noConfusion h
  | deliver oid bd br pay =>
      simp only [exec] at h
      unfold deliver at h
      split at h
      · exact Except.noConfusion h
      next o hfo =>
        split at h
        · exact Except.noConfusion h
        · split at h
          · exact Except.noConfusion h
          · split at h
            · split at h
              · exact Except.noConfusion h
              next s2 hpost =>
                injection h with h1
                subst h1
                exact ⟨_, (postEntry_frame hpost).1⟩
            · exact Except.noConfusion h
  | cancel oid reason =>
      simp only [exec] at h
      unfold cancel at h
      split at h
      · exact Except.noConfusion h
      next o hfo =>
        split at h
        · exact Except.noConfusion h
        · split at h
          · exact Except.noConfusion h
          · split at h
            · exact Except.noConfusion h
            · injection h with h1
              subst h1
              exact ⟨[], by simp⟩
  | revertDelivery oid reason =>
      simp only [exec] at h
      unfold revertDelivery at h
      split at h
      · exact Except.noConfusion h
      next o hfo =>
        split at h
        · exact Except.noConfusion h
        · split at h
          · split at h
            · exact Except.noConfusion h
            · split at h
              · exact Except.noConfusion h
              next s2 hpost =>
                injection h with h1
                subst h1
                exact ⟨_, (postEntry_frame hpost).1⟩
          · exact Except.noConfusion h
  | correct oid nbd nbr npay reason =>
      simp only [exec] at h
      unfold correct at h
      split at h
      · exact Except.noConfusion h
      next o hfo =>
        split at h
        · exact Except.noConfusion h
        · split at h
          · exact Except.noConfusion h
          · split at h
            · split at h
              · exact Except.noConfusion h
              next s2 hpost =>
                injection h with h1
                subst h1
                exact ⟨_, (postEntry_frame hpost).1⟩
            · exact Except.noConfusion h
  | softDelete oid reason =>
      simp only [exec] at h
      unfold softDelete at h
      split at h
      · exact Except.noConfusion h
      next o hfo =>
        split at h
        · exact Except.noConfusion h
        · split at h
          · injection h with h1
            subst h1
            exact ⟨[], by simp⟩
          · split at h
            · exact Except.noConfusion h
            next s2 hpost =>
              injection h with h1
              subst h1
              exact ⟨_, (postEntry_frame hpost).1⟩

/-- The ledger only ever grows along any sequence of successful
transitions. -/
theorem Steps_ledger_extends {s s' : DBState} (h : Steps s s') :
    ∃ t, s'.ledger = s.ledger ++ t := by
  induction h with
  | refl => exact ⟨[], by simp⟩
  | tail hsteps hstep ih =>
      obtain ⟨t1, ht1⟩ := ih
      obtain ⟨op, hop⟩ := hstep
      obtain ⟨t2, ht2⟩ := exec_ledger_extends hop
      exact ⟨t1 ++ t2, by rw [ht2, ht1, List.append_assoc]⟩

theorem Step_inv {s s' : DBState} (hinv : Inv s) (h : Step s s') : Inv s' := by
  obtain ⟨op, hop⟩ := h
  exact exec_inv hinv hop

/-- Every reachable state satisfies the invariant. -/
theorem Reachable_inv {s : DBState} (h : Reachable s) : Inv s := by
  induction h with
  | init => exact Inv_init
  | step _ hs ih => exact Step_inv ih hs

/-- Order primary keys are never removed by any successful operation. -/
theorem exec_orders_ids {s s' : DBState} {op : Op}
    (h : exec s op = .ok s') :
    ∀ oid ∈ s.orders.map (fun o => o.id), oid ∈ s'.orders.map (fun o => o.id) := by
  cases op with
  | createCustomer name =>
      simp only [exec] at h
      injection h with h1
      subst h1
      exact fun oid hm => hm
  | createOrder cid total =>
      simp only [exec] at h
      unfold createOrder at h
      split at h
      · exact Except.noConfusion h
      · split at h
        next c' =>
          split at h
          · exact Except.noConfusion h
          · injection h with h1
            subst h1
            intro oid hm
            show oid ∈ (s.orders ++ [mkOrder s.next_order_id (some c') total]).map (fun o => o.id)
            rw [List.map_append]
            exact List.mem_append_left _ hm
        next =>
          injection h with h1
          subst h1
          intro oid hm
          show oid ∈ (s.orders ++ [mkOrder s.next_order_id none total]).map (fun o => o.id)
          rw [List.map_append]
          exact List.mem_append_left _ hm
  | assign oid did =>
      simp only [exec] at h
      unfold assign at h
      split at h
      · exact Except.noConfusion h
      next o hfo =>
        split at h
        · exact Except.noConfusion h
        · split at h
          · injection h with h1
            subst h1
            intro oid' hm
            show oid' ∈ (updateOrder s.orders _).map (fun o => o.id)
            rw [updateOrder_map_id]
            exact hm
          · exact Except.noConfusion h
  | dispatch oid =>
      simp only [exec] at h
      unfold dispatch at h
      split at h
      · exact Except.noConfusion h
      next o hfo =>
        split at h
        · exact Except.noConfusion h
        · split at h
          · injection h with h1
            subst h1
            intro oid' hm
            show oid' ∈ (updateOrder s.orders _).map (fun o => o.id)
            rw [updateOrder_map_id]
            exact hm
          · exact Except.noConfusion h
  | deliver oid bd br pay =>
      simp only [exec] at h
      unfold deliver at h
      split at h
      · exact Except.noConfusion h
      next o hfo =>
        split at h
        · exact Except.noConfusion h
        · split at h
          · exact Except.noConfusion h
          · split at h
            · split at h
              · exact Except.noConfusion h
              next s2 hpost =>
                injection h with h1
                subst h1
                intro oid' hm
                show oid' ∈ (updateOrder s2.orders _).map (fun o => o.id)
                rw [updateOrder_map_id, (postEntry_frame hpost).2.1]
                exact hm
            · exact Except.noConfusion h
  | cancel oid reason =>
      simp only [exec] at h
      unfold cancel at h
      split at h
      · exact Except.noConfusion h
      next o hfo =>
        split at h
        · exact Except.noConfusion h
        · split at h
          · exact Except.noConfusion h
          · split at h
            · exact Except.noConfusion h
            · injection h with h1
              subst h1
              intro oid' hm
              show oid' ∈ (updateOrder s.orders _).map (fun o => o.id)
              rw [updateOrder_map_id]
              exact hm
  | revertDelivery oid reason =>
      simp only [exec] at h
      unfold revertDelivery at h
      split at h
      · exact Except.noConfusion h
      next o hfo =>
        split at h
        · exact Except.noConfusion h
        · split at h
          · split at h
            · exact Except.noConfusion h
            · split at h
              · exact Except.noConfusion h
              next s2 hpost =>
                injection h with h1
                subst h1
                intro oid' hm
                show oid' ∈ (updateOrder s2.orders _).map (fun o => o.id)
                rw [updateOrder_map_id, (postEntry_frame hpost).2.1]
                exact hm
          · exact Except.noConfusion h
  | correct oid nbd nbr npay reason =>
      simp only [exec] at h
      unfold correct at h
      split at h
      · exact Except.noConfusion h
      next o hfo =>
        split at h
        · exact Except.noConfusion h
        · split at h
          · exact Except.noConfusion h
          · split at h
            · split at h
              · exact Except.noConfusion h
              next s2 hpost =>
                injection h with h1
                subst h1
                intro oid' hm
                show oid' ∈ (updateOrder s2.orders _).map (fun o => o.id)
                rw [updateOrder_map_id, (postEntry_frame hpost).2.1]
                exact hm
            · exact Except.noConfusion h
  | softDelete oid reason =>
      simp only [exec] at h
      unfold softDelete at h
      split at h
      · exact Except.noConfusion h
      next o hfo =>
        split at h
        · exact Except.noConfusion h
        · split at h
          · injection h with h1
            subst h1
            intro oid' hm
            show oid' ∈ (updateOrder s.orders _).map (fun o => o.id)
            rw [updateOrder_map_id]
            exact hm
          · split at h
            · exact Except.noConfusion h
            next s2 hpost =>
              injection h with h1
              subst h1
              intro oid' hm
              show oid' ∈ (updateOrder s2.orders _).map (fun o => o.id)
              rw [updateOrder_map_id, (postEntry_frame hpost).2.1]
              exact hm

theorem Reachable_exS1 : Reachable exS1 :=
  Reachable.step Reachable.init ⟨Op.createCustomer "Ada", rfl⟩

theorem Reachable_exS2 : Reachable exS2 :=
  Reachable.step Reachable_exS1 ⟨Op.createOrder (some 1) 2500, rfl⟩

theorem Reachable_exS3 : Reachable exS3 :=
  Reachable.step Reachable_exS2 ⟨Op.assign 1 7, rfl⟩

theorem Reachable_exS4 : Reachable exS4 :=
  Reachable.step Reachable_exS3 ⟨Op.deliver 1 5 0 (some 2500), rfl⟩

/-- C1: for every customer and at every reachable state, the stored
`bottles_in_hand` equals the sum of `bottles_delta` over that customer's
ledger entries, and the stored `account_balance` equals the sum of
`balance_delta` over them. -/
theorem C1_aggregates_equal_ledger_sums (s : DBState) (hs : Reachable s) :
    ∀ c ∈ s.customers,
      c.bottles_in_hand = bottlesSumFor s.ledger c.id ∧
      c.account_balance = balanceSumFor s.ledger c.id := by
  intro c hc
  exact ⟨(Reachable_inv hs).sumsBottles c hc, (Reachable_inv hs).sumsBalance c hc⟩

/-- Witness for C1 at the concrete delivered state `exS4`. -/
theorem C1_witness :
    adaDelivered.bottles_in_hand = bottlesSumFor exS4.ledger adaDelivered.id ∧
    adaDelivered.account_balance = balanceSumFor exS4.ledger adaDelivered.id :=
  C1_aggregates_equal_ledger_sums exS4 Reachable_exS4 adaDelivered (by decide)

/-- C3: the ledger is append-only — after any sequence of successful
transitions, the earlier state's ledger is an unchanged prefix of the later
state's ledger (no entry is ever updated or removed). -/
theorem C3_ledger_append_only (s s' : DBState) (h : Steps s s') :
    s'.ledger.take s.ledger.length = s.ledger := by
  obtain ⟨t, ht⟩ := Steps_ledger_extends h
  rw [ht]
  exact List.take_left _ _

/-- Witness for C3 along the concrete run from `exS1` to `exS4`. -/
theorem C3_witness : exS4.ledger.take exS1.ledger.length = exS1.ledger :=
  C3_ledger_append_only exS1 exS4
    (Steps.tail
      (Steps.tail
        (Steps.tail (Steps.refl exS1) ⟨Op.createOrder (some 1) 2500, rfl⟩)
        ⟨Op.assign 1 7, rfl⟩)
      ⟨Op.deliver 1 5 0 (some 2500), rfl⟩)

/-- C9: a newly created customer has `bottles_in_hand = 0` and
`account_balance = 0.00` by default, so with no ledger entries of its own it
already satisfies the aggregate-equals-sum-of-deltas invariant. -/
theorem C9_new_customer_zero_counters (id : Nat) (name : String)
    (l : List AuditEntry) (h : ∀ e ∈ l, e.customer_id ≠ some id) :
    (mkCustomer id name).bottles_in_hand = 0 ∧
    (mkCustomer id name).account_balance = 0 ∧
    (mkCustomer id name).bottles_in_hand = bottlesSumFor l (mkCustomer id name).id ∧
    (mkCustomer id name).account_balance = balanceSumFor l (mkCustomer id name).id := by
  refine ⟨rfl, rfl, ?_, ?_⟩
  · show (0 : Int) = bottlesSumFor l id
    rw [bottlesSumFor_eq_zero h]
  · show (0 : Int) = balanceSumFor l id
    rw [balanceSumFor_eq_zero h]

/-- Witness for C9: customer 7 has no entries in `exS4`'s ledger. -/
theorem C9_witness :
    (mkCustomer 7 "New").bottles_in_hand = 0 ∧
    (mkCustomer 7 "New").account_balance = 0 ∧
    (mkCustomer 7 "New").bottles_in_hand = bottlesSumFor exS4.ledger (mkCustomer 7 "New").id ∧
    (mkCustomer 7 "New").account_balance = balanceSumFor exS4.ledger (mkCustomer 7 "New").id :=
  C9_new_customer_zero_counters 7 "New" exS4.ledger (by decide)

/-- C10: only the bottle counter is domain-bounded — the customers table's
only check constraint ignores `account_balance` (any balance value passes
it), and the Balance Projector accepts any balance delta, however large or
negative, as long as the resulting bottle count stays in [-100, 10000]. -/
theorem C10_balance_unbounded :
    (∀ (c : Customer) (b : Int),
      customerRowCheck { c with account_balance := b } = customerRowCheck c) ∧
    (∀ (s : DBState) (e : AuditEntry) (cid : Nat) (c : Customer),
      e.customer_id = some cid →
      findCustomer s.customers cid = some c →
      -100 ≤ c.bottles_in_hand + e.bottles_delta.getD 0 →
      c.bottles_in_hand + e.bottles_delta.getD 0 ≤ 10000 →
      ∃ s2, applyEntry s e = .ok s2) := by
  constructor
  · intro c b
    rfl
  · intro s e cid c hcid hfc hlo hhi
    unfold applyEntry
    rw [hcid]
    dsimp only
    rw [hfc]
    dsimp only
    rw [if_neg (by
      intro hor
      rcases hor with hx | hx
      · exact absurd hlo (not_le.mpr hx)
      · exact absurd hhi (not_le.mpr hx))]
    exact ⟨_, rfl⟩

/-- Witness for C10: the row check accepts a huge negative balance, and
applying a billion-unit debit succeeds. -/
theorem C10_witness :
    customerRowCheck { capCustomer with account_balance := -100000000000 } =
      customerRowCheck capCustomer ∧
    ∃ s2, applyEntry capState hugeDebitEntry = .ok s2 :=
  ⟨C10_balance_unbounded.1 capCustomer (-100000000000),
   C10_balance_unbounded.2 capState hugeDebitEntry 1 capCustomer rfl rfl
     (by decide) (by decide)⟩

/-- C2: a delivery whose bottle delta would move the customer's
`bottles_in_hand` outside [-100, 10000] fails with `OutOfRange`; a failed
operation changes nothing; and consequently every customer of every
reachable state has `bottles_in_hand` within [-100, 10000]. -/
theorem C2_out_of_range_aborts :
    (∀ (s : DBState) (oid : Nat) (o : Order) (cid : Nat) (c : Customer)
        (bd br : Int) (pay : Option Int),
      findOrder s.orders oid = some o →
      ¬(bd < 0 ∨ br < 0) →
      o.is_deleted = false →
      (o.status = OrderStatus.ASSIGNED ∨ o.status = OrderStatus.OUT_FOR_DELIVERY) →
      o.customer_id = some cid →
      findCustomer s.customers cid = some c →
      (c.bottles_in_hand + (bd - br) < -100 ∨ 10000 < c.bottles_in_hand + (bd - br)) →
      deliver s oid bd br pay = .error Err.OutOfRange) ∧
    (∀ (s : DBState) (op : Op) (err : Err), exec s op = .error err → run s op = s) ∧
    (∀ s : DBState, Reachable s → ∀ c ∈ s.customers,
      -100 ≤ c.bottles_in_hand ∧ c.bottles_in_hand ≤ 10000) := by
  refine ⟨?_, ?_, ?_⟩
  · intro s oid o cid c bd br pay hfo hq hdel hst hcid hfc hout
    have happ : appendEntry s (deliveryEntry s oid o bd br pay) =
        .ok { s with ledger := s.ledger ++ [deliveryEntry s oid o bd br pay] } := by
      unfold appendEntry
      rw [if_neg (fun hc => Option.noConfusion hc.1)]
      rw [if_neg (by
        intro hx
        rw [show (deliveryEntry s oid o bd br pay).order_id = oid from rfl, hfo] at hx
        exact Option.noConfusion hx)]
      rw [show (deliveryEntry s oid o bd br pay).customer_id = some cid from hcid]
      dsimp only
      rw [if_neg (by rw [hfc]; exact fun hx => Option.noConfusion hx)]
    have happly :
        applyEntry { s with ledger := s.ledger ++ [deliveryEntry s oid o bd br pay] }
          (deliveryEntry s oid o bd br pay) = .error Err.OutOfRange := by
      unfold applyEntry
      rw [show (deliveryEntry s oid o bd br pay).customer_id = some cid from hcid]
      dsimp only
      rw [show findCustomer
          ({ s with ledger := s.ledger ++ [deliveryEntry s oid o bd br pay] } :
            DBState).customers cid = some c from hfc]
      dsimp only
      rw [if_pos (show c.bottles_in_hand +
          (deliveryEntry s oid o bd br pay).bottles_delta.getD 0 < -100 ∨
          10000 < c.bottles_in_hand +
          (deliveryEntry s oid o bd br pay).bottles_delta.getD 0 from hout)]
    have hpost : postEntry s (deliveryEntry s oid o bd br pay) =
        .error Err.OutOfRange := by
      unfold postEntry
      rw [happ]
      exact happly
    unfold deliver
    rw [hfo]
    dsimp only
    rw [if_neg hq]
    rw [if_neg (by rw [hdel]; exact Bool.false_ne_true)]
    rw [if_pos hst]
    rw [hpost]
  · intro s op err h
    exact run_eq_of_error h
  · intro s hs c hc
    exact ⟨(Reachable_inv hs).bottlesLower c hc, (Reachable_inv hs).bottlesUpper c hc⟩

/-- Witness for C2: delivering 5 bottles to a customer holding 9999 fails
with `OutOfRange`, nothing changes, and the reachable state `exS4` respects
the bound. -/
theorem C2_witness :
    deliver capState 1 5 0 none = .error Err.OutOfRange ∧
    run capState (Op.deliver 1 5 0 none) = capState ∧
    (-100 ≤ adaDelivered.bottles_in_hand ∧ adaDelivered.bottles_in_hand ≤ 10000) :=
  ⟨C2_out_of_range_aborts.1 capState 1 capOrder 1 capCustomer 5 0 none rfl
      (by decide) rfl (Or.inl rfl) rfl rfl (Or.inr (by decide)),
   C2_out_of_range_aborts.2.1 capState (Op.deliver 1 5 0 none) Err.OutOfRange rfl,
   C2_out_of_range_aborts.2.2 exS4 Reachable_exS4 adaDelivered (by decide)⟩

/-- C6: delivering with a negative bottle count fails with `InvalidQuantity`
and posts nothing; a successful delivery stores non-negative bottle counts on
the order. -/
theorem C6_invalid_quantity :
    (∀ (s : DBState) (oid : Nat) (o : Order) (bd br : Int) (pay : Option Int),
      findOrder s.orders oid = some o → (bd < 0 ∨ br < 0) →
      deliver s oid bd br pay = .error Err.InvalidQuantity ∧
      run s (Op.deliver oid bd br pay) = s) ∧
    (∀ (s s1 : DBState) (oid : Nat) (bd br : Int) (pay : Option Int),
      deliver s oid bd br pay = .ok s1 →
      ∃ o1, findOrder s1.orders oid = some o1 ∧
        0 ≤ o1.bottles_delivered ∧ 0 ≤ o1.bottles_returned) := by
  constructor
  · intro s oid o bd br pay hfo hneg
    have herr : deliver s oid bd br pay = .error Err.InvalidQuantity := by
      unfold deliver
      rw [hfo]
      dsimp only
      rw [if_pos hneg]
    exact ⟨herr, run_eq_of_error herr⟩
  · intro s s1 oid bd br pay h
    obtain ⟨o, s2, hfo, hq, hdel, hst, hpost, rfl⟩ := deliver_ok_inv h
    push_neg at hq
    refine ⟨deliveredOrder o bd br pay, ?_, hq.1, hq.2⟩
    show findOrder (updateOrder s2.orders (deliveredOrder o bd br pay)) oid = some _
    rw [(postEntry_frame hpost).2.1]
    exact findOrder_updateOrder hfo
      (show (deliveredOrder o bd br pay).id = oid from (findOrder_eq_some hfo).2)

/-- Witness for C6: `deliver` with `bottlesDelivered = -1` on the assigned
order of `exS3` fails with `InvalidQuantity` and changes nothing, while the
successful delivery `exS3 → exS4` stores non-negative counts. -/
theorem C6_witness :
    (deliver exS3 1 (-1) 0 none = .error Err.InvalidQuantity ∧
      run exS3 (Op.deliver 1 (-1) 0 none) = exS3) ∧
    (∃ o1, findOrder exS4.orders 1 = some o1 ∧
      0 ≤ o1.bottles_delivered ∧ 0 ≤ o1.bottles_returned) :=
  ⟨C6_invalid_quantity.1 exS3 1 assignedOrder (-1) 0 none (by decide)
      (Or.inl (by decide)),
   C6_invalid_quantity.2 exS3 exS4 1 5 0 (some 2500) rfl⟩

/-- C7: the Ledger Entry Store's `append` fails with `ValidationError`
exactly when both deltas are absent or a referenced order/customer id is
unknown; `ValidationError` is its only error; and on success the only change
is one entry appended at the end of the ledger. -/
theorem C7_append_validation (s : DBState) (e : AuditEntry) :
    (appendEntry s e = .error Err.ValidationError ↔
      (e.bottles_delta = none ∧ e.balance_delta = none) ∨
      findOrder s.orders e.order_id = none ∨
      (∃ cid, e.customer_id = some cid ∧ findCustomer s.customers cid = none)) ∧
    (∀ err, appendEntry s e = .error err → err = Err.ValidationError) ∧
    (∀ s1, appendEntry s e = .ok s1 → s1 = { s with ledger := s.ledger ++ [e] }) := by
  unfold appendEntry
  by_cases h1 : e.bottles_delta = none ∧ e.balance_delta = none
  · rw [if_pos h1]
    refine ⟨⟨fun _ => Or.inl h1, fun _ => rfl⟩, ?_, ?_⟩
    · intro err h
      injection h with h2
      exact h2.symm
    · intro s1 h
      exact Except.noConfusion h
  · rw [if_neg h1]
    by_cases h2 : findOrder s.orders e.order_id = none
    · rw [if_pos h2]
      refine ⟨⟨fun _ => Or.inr (Or.inl h2), fun _ => rfl⟩, ?_, ?_⟩
      · intro err h
        injection h with h3
        exact h3.symm
      · intro s1 h
        exact Except.noConfusion h
    · rw [if_neg h2]
      cases hcid : e.customer_id with
      | none =>
          dsimp only
          refine ⟨⟨fun h => Except.noConfusion h, ?_⟩, ?_, ?_⟩
          · rintro (hc | hc | ⟨cid, hc, -⟩)
            · exact absurd hc h1
            · exact absurd hc h2
            · exact Option.noConfusion hc
          · intro err h
            exact Except.noConfusion h
          · intro s1 h
            injection h with h3
            exact h3.symm
      | some cid =>
          dsimp only
          by_cases h3 : findCustomer s.customers cid = none
          · rw [if_pos h3]
            refine ⟨⟨fun _ => Or.inr (Or.inr ⟨cid, rfl, h3⟩), fun _ => rfl⟩, ?_, ?_⟩
            · intro err h
              injection h with h4
              exact h4.symm
            · intro s1 h
              exact Except.noConfusion h
          · rw [if_neg h3]
            refine ⟨⟨fun h => Except.noConfusion h, ?_⟩, ?_, ?_⟩
            · rintro (hc | hc | ⟨cid', hc, hfc⟩)
              · exact absurd hc h1
              · exact absurd hc h2
              · injection hc with h4
                subst h4
                exact absurd hfc h3
            · intro err h
              exact Except.noConfusion h
            · intro s1 h
              injection h with h4
              exact h4.symm

/-- Witness for C7: appending a no-delta entry fails with `ValidationError`. -/
theorem C7_witness : appendEntry exS1 noopEntry = .error Err.ValidationError :=
  (C7_append_validation exS1 noopEntry).1.mpr (Or.inl ⟨rfl, rfl⟩)

/-- C8: a freshly created order carries the `PENDING` default; `createOrder`
only appends that row; and no successful operation ever removes an order —
its primary key survives every step (deletion is only the soft flag). -/
theorem C8_pending_and_never_hard_deleted :
    (∀ (id : Nat) (cid : Option Nat) (total : Int),
      (mkOrder id cid total).status = OrderStatus.PENDING) ∧
    (∀ (s s' : DBState) (cid : Option Nat) (total : Int),
      createOrder s cid total = .ok s' →
      s'.orders = s.orders ++ [mkOrder s.next_order_id cid total]) ∧
    (∀ (s s' : DBState), Steps s s' →
      ∀ o ∈ s.orders, o.id ∈ s'.orders.map (fun x => x.id)) := by
  refine ⟨fun _ _ _ => rfl, ?_, ?_⟩
  · intro s s' cid total h
    unfold createOrder at h
    split at h
    · exact Except.noConfusion h
    · split at h
      next c' =>
        split at h
        · exact Except.noConfusion h
        · injection h with h1
          rw [← h1]
      next =>
        injection h with h1
        rw [← h1]
  · intro s s' hsteps o hmem
    induction hsteps with
    | refl => exact List.mem_map_of_mem _ hmem
    | tail hst hstep ih =>
        obtain ⟨op, hop⟩ := hstep
        exact exec_orders_ids hop o.id ih

/-- Witness for C8 on the concrete run: the created order is `PENDING`, and
order 1 survives the delivery step. -/
theorem C8_witness :
    (mkOrder 1 (some 1) 2500).status = OrderStatus.PENDING ∧
    exS2.orders = exS1.orders ++ [mkOrder exS1.next_order_id (some 1) 2500] ∧
    assignedOrder.id ∈ exS4.orders.map (fun x => x.id) :=
  ⟨C8_pending_and_never_hard_deleted.1 1 (some 1) 2500,
   C8_pending_and_never_hard_deleted.2.1 exS1 exS2 (some 1) 2500 rfl,
   C8_pending_and_never_hard_deleted.2.2 exS3 exS4
     (Steps.tail (Steps.refl exS3) ⟨Op.deliver 1 5 0 (some 2500), rfl⟩)
     assignedOrder (by decide)⟩

theorem getD_map_neg (pay : Option Int) :
    (pay.map (fun d => -d)).getD 0 = -(pay.getD 0) := by
  cases pay <;> simp

/-- C4: reverting a delivery is a true inverse — on a freshly delivered
order, `revertDelivery` succeeds, posts exactly one `DELIVERY_REVERTED`
entry whose deltas are the exact negation of the delivery entry's deltas,
moves the order back to `ASSIGNED`, and re-deriving every customer's
aggregate from the ledger afterwards yields the same aggregates as before
the `deliver` call. -/
theorem C4_revert_is_true_inverse
    (s s1 : DBState) (oid : Nat) (bd br : Int) (pay : Option Int)
    (reason : String) (hs : Reachable s)
    (hdel : deliver s oid bd br pay = .ok s1) :
    ∃ s2 o,
      findOrder s.orders oid = some o ∧
      s1.ledger = s.ledger ++ [deliveryEntry s oid o bd br pay] ∧
      revertDelivery s1 oid reason = .ok s2 ∧
      s2.ledger = s1.ledger ++
        [revertEntry s1 oid (deliveredOrder o bd br pay)
          (deliveryEntry s oid o bd br pay) reason] ∧
      (revertEntry s1 oid (deliveredOrder o bd br pay)
        (deliveryEntry s oid o bd br pay) reason).action =
          AuditAction.DELIVERY_REVERTED ∧
      (revertEntry s1 oid (deliveredOrder o bd br pay)
        (deliveryEntry s oid o bd br pay) reason).bottles_delta =
          some (-(bd - br)) ∧
      (revertEntry s1 oid (deliveredOrder o bd br pay)
        (deliveryEntry s oid o bd br pay) reason).balance_delta =
          pay.map (fun p => -p) ∧
      (findOrder s2.orders oid).map (fun x => x.status) =
        some OrderStatus.ASSIGNED ∧
      (∀ cid, bottlesSumFor s2.ledger cid = bottlesSumFor s.ledger cid ∧
              balanceSumFor s2.ledger cid = balanceSumFor s.ledger cid) := by
  obtain ⟨o, s2', hfo, hq, hdel0, hst, hpost, hs1⟩ := deliver_ok_inv hdel
  have hframe := postEntry_frame hpost
  have hoid : o.id = oid := (findOrder_eq_some hfo).2
  have hinv0 := Reachable_inv hs
  have hreach1 : Reachable s1 :=
    Reachable.step hs ⟨Op.deliver oid bd br pay, hdel⟩
  have hinv1 := Reachable_inv hreach1
  have hs1orders : s1.orders = updateOrder s.orders (deliveredOrder o bd br pay) := by
    rw [hs1]
    show updateOrder s2'.orders (deliveredOrder o bd br pay) = _
    rw [hframe.2.1]
  have hs1ledger : s1.ledger = s.ledger ++ [deliveryEntry s oid o bd br pay] := by
    rw [hs1]
    show s2'.ledger = _
    exact hframe.1
  have hfo1 : findOrder s1.orders oid = some (deliveredOrder o bd br pay) := by
    rw [hs1orders]
    exact findOrder_updateOrder hfo hoid
  have hlde : lastDeliveryEntry s1.ledger oid =
      some (deliveryEntry s oid o bd br pay) := by
    rw [hs1ledger, lastDeliveryEntry_append, if_pos ⟨rfl, rfl⟩]
  have hmemO1 : deliveredOrder o bd br pay ∈ s1.orders := (findOrder_eq_some hfo1).1
  have hmemO0 : o ∈ s.orders := (findOrder_eq_some hfo).1
  have h3 : ∀ cid,
      (revertEntry s1 oid (deliveredOrder o bd br pay)
        (deliveryEntry s oid o bd br pay) reason).customer_id = some cid →
      ∃ c, findCustomer s1.customers cid = some c ∧
        -100 ≤ c.bottles_in_hand +
          (revertEntry s1 oid (deliveredOrder o bd br pay)
            (deliveryEntry s oid o bd br pay) reason).bottles_delta.getD 0 ∧
        c.bottles_in_hand +
          (revertEntry s1 oid (deliveredOrder o bd br pay)
            (deliveryEntry s oid o bd br pay) reason).bottles_delta.getD 0 ≤ 10000 := by
    intro cid hcid
    have hcid' : o.customer_id = some cid := hcid
    have hcin1 : cid ∈ s1.customers.map (fun c => c.id) :=
      hinv1.orderCustKnown _ hmemO1 cid hcid'
    have hsome1 : (findCustomer s1.customers cid).isSome :=
      findCustomer_isSome_iff.mpr hcin1
    obtain ⟨c1, hc1⟩ : ∃ c1, findCustomer s1.customers cid = some c1 := by
      cases hx : findCustomer s1.customers cid
      · rw [hx] at hsome1
        exact absurd hsome1 (by simp)
      · exact ⟨_, rfl⟩
    have hc1mem := (findCustomer_eq_some hc1).1
    have hc1id := (findCustomer_eq_some hc1).2
    have hcin0 : cid ∈ s.customers.map (fun c => c.id) :=
      hinv0.orderCustKnown o hmemO0 cid hcid'
    have hsome0 : (findCustomer s.customers cid).isSome :=
      findCustomer_isSome_iff.mpr hcin0
    obtain ⟨c0, hc0⟩ : ∃ c0, findCustomer s.customers cid = some c0 := by
      cases hx : findCustomer s.customers cid
      · rw [hx] at hsome0
        exact absurd hsome0 (by simp)
      · exact ⟨_, rfl⟩
    have hc0mem := (findCustomer_eq_some hc0).1
    have hc0id := (findCustomer_eq_some hc0).2
    have hc0b : c0.bottles_in_hand = bottlesSumFor s.ledger cid := by
      rw [← hc0id]
      exact hinv0.sumsBottles c0 hc0mem
    have hc1b : c1.bottles_in_hand = bottlesSumFor s.ledger cid + (bd - br) := by
      have h := hinv1.sumsBottles c1 hc1mem
      rw [hc1id] at h
      rw [h, hs1ledger, bottlesSumFor_append]
      congr 1
      show (if (deliveryEntry s oid o bd br pay).customer_id = some cid
        then (deliveryEntry s oid o bd br pay).bottles_delta.getD 0 else 0) + 0 = bd - br
      rw [if_pos (show (deliveryEntry s oid o bd br pay).customer_id = some cid from hcid')]
      show (bd - br) + 0 = bd - br
      ring
    have hkey : c1.bottles_in_hand + (-(bd - br)) = c0.bottles_in_hand := by
      rw [hc1b, hc0b]
      ring
    refine ⟨c1, hc1, ?_, ?_⟩
    · show -100 ≤ c1.bottles_in_hand + (-(bd - br))
      rw [hkey]
      exact hinv0.bottlesLower c0 hc0mem
    · show c1.bottles_in_hand + (-(bd - br)) ≤ 10000
      rw [hkey]
      exact hinv0.bottlesUpper c0 hc0mem
  obtain ⟨s3, hpost2⟩ := postEntry_succeeds
    (e := revertEntry s1 oid (deliveredOrder o bd br pay)
      (deliveryEntry s oid o bd br pay) reason)
    (Or.inl (fun hx => Option.noConfusion hx))
    (by
      intro hx
      rw [show (revertEntry s1 oid (deliveredOrder o bd br pay)
        (deliveryEntry s oid o bd br pay) reason).order_id = oid from rfl, hfo1] at hx
      exact Option.noConfusion hx)
    h3
  have hframe2 := postEntry_frame hpost2
  have hrev : revertDelivery s1 oid reason =
      .ok { s3 with
            orders := (updateOrder s3.orders
              { deliveredOrder o bd br pay with status := OrderStatus.ASSIGNED }),
            next_entry_id := s3.next_entry_id + 1 } := by
    unfold revertDelivery
    rw [hfo1]
    dsimp only
    rw [if_neg (show ¬((deliveredOrder o bd br pay).is_deleted = true) from by
      rw [show (deliveredOrder o bd br pay).is_deleted = o.is_deleted from rfl, hdel0]
      exact Bool.false_ne_true)]
    rw [if_pos (show (deliveredOrder o bd br pay).status = OrderStatus.DELIVERED from rfl)]
    rw [hlde]
    dsimp only
    rw [hpost2]
  refine ⟨_, o, hfo, hs1ledger, hrev, ?_, rfl, rfl, rfl, ?_, ?_⟩
  · show s3.ledger = _
    exact hframe2.1
  · show (findOrder (updateOrder s3.orders
      { deliveredOrder o bd br pay with status := OrderStatus.ASSIGNED }) oid).map
        (fun x => x.status) = some OrderStatus.ASSIGNED
    rw [hframe2.2.1, hs1orders]
    rw [findOrder_updateOrder
      (findOrder_updateOrder hfo
        (show (deliveredOrder o bd br pay).id = oid from hoid))
      (show ({ deliveredOrder o bd br pay with
        status := OrderStatus.ASSIGNED } : Order).id = oid from hoid)]
    rfl
  · intro cid
    have hled2 : s3.ledger = (s.ledger ++ [deliveryEntry s oid o bd br pay]) ++
        [revertEntry s1 oid (deliveredOrder o bd br pay)
          (deliveryEntry s oid o bd br pay) reason] := by
      rw [hframe2.1, hs1ledger]
    constructor
    · show bottlesSumFor s3.ledger cid = _
      rw [hled2, bottlesSumFor_append, bottlesSumFor_append]
      simp only [bottlesSumFor_cons, bottlesSumFor_nil]
      by_cases hoc : o.customer_id = some cid
      · rw [if_pos (show (deliveryEntry s oid o bd br pay).customer_id = some cid from hoc),
          if_pos (show (revertEntry s1 oid (deliveredOrder o bd br pay)
            (deliveryEntry s oid o bd br pay) reason).customer_id = some cid from hoc)]
        show bottlesSumFor s.ledger cid + ((bd - br) + 0) + (-(bd - br) + 0) =
          bottlesSumFor s.ledger cid
        ring
      · rw [if_neg (show ¬((deliveryEntry s oid o bd br pay).customer_id = some cid)
            from hoc),
          if_neg (show ¬((revertEntry s1 oid (deliveredOrder o bd br pay)
            (deliveryEntry s oid o bd br pay) reason).customer_id = some cid) from hoc)]
        ring
    · show balanceSumFor s3.ledger cid = _
      rw [hled2, balanceSumFor_append, balanceSumFor_append]
      simp only [balanceSumFor_cons, balanceSumFor_nil]
      by_cases hoc : o.customer_id = some cid
      · rw [if_pos (show (deliveryEntry s oid o bd br pay).customer_id = some cid from hoc),
          if_pos (show (revertEntry s1 oid (deliveredOrder o bd br pay)
            (deliveryEntry s oid o bd br pay) reason).customer_id = some cid from hoc)]
        show balanceSumFor s.ledger cid + (pay.getD 0 + 0) +
          ((pay.map (fun d => -d)).getD 0 + 0) = balanceSumFor s.ledger cid
        rw [getD_map_neg]
        ring
      · rw [if_neg (show ¬((deliveryEntry s oid o bd br pay).customer_id = some cid)
            from hoc),
          if_neg (show ¬((revertEntry s1 oid (deliveredOrder o bd br pay)
            (deliveryEntry s oid o bd br pay) reason).customer_id = some cid) from hoc)]
        ring

/-- Witness for C4 at the concrete delivery `exS3 → exS4`, reverted with
reason "undo". -/
theorem C4_witness :
    ∃ s2 o,
      findOrder exS3.orders 1 = some o ∧
      exS4.ledger = exS3.ledger ++ [deliveryEntry exS3 1 o 5 0 (some 2500)] ∧
      revertDelivery exS4 1 "undo" = .ok s2 ∧
      s2.ledger = exS4.ledger ++
        [revertEntry exS4 1 (deliveredOrder o 5 0 (some 2500))
          (deliveryEntry exS3 1 o 5 0 (some 2500)) "undo"] ∧
      (revertEntry exS4 1 (deliveredOrder o 5 0 (some 2500))
        (deliveryEntry exS3 1 o 5 0 (some 2500)) "undo").action =
          AuditAction.DELIVERY_REVERTED ∧
      (revertEntry exS4 1 (deliveredOrder o 5 0 (some 2500))
        (deliveryEntry exS3 1 o 5 0 (some 2500)) "undo").bottles_delta =
          some (-(5 - 0)) ∧
      (revertEntry exS4 1 (deliveredOrder o 5 0 (some 2500))
        (deliveryEntry exS3 1 o 5 0 (some 2500)) "undo").balance_delta =
          (some 2500 : Option Int).map (fun p => -p) ∧
      (findOrder s2.orders 1).map (fun x => x.status) =
        some OrderStatus.ASSIGNED ∧
      (∀ cid, bottlesSumFor s2.ledger cid = bottlesSumFor exS3.ledger cid ∧
              balanceSumFor s2.ledger cid = balanceSumFor exS3.ledger cid) :=
  C4_revert_is_true_inverse exS3 exS4 1 5 0 (some 2500) "undo" Reachable_exS3 rfl

/-- C5: a correction on a delivered order posts exactly one entry carrying
only the difference between the net effect already posted for the order and
the new intended effect; immediately repeating the same correction posts a
zero-delta entry, leaving every customer aggregate unchanged (no double
counting). -/
theorem C5_correction_posts_difference
    (s s1 : DBState) (oid : Nat) (nbd nbr npay : Int) (r1 r2 : String)
    (hs : Reachable s)
    (hc1 : correct s oid nbd nbr npay r1 = .ok s1) :
    ∃ o,
      findOrder s.orders oid = some o ∧
      s1.ledger = s.ledger ++ [correctionEntry s oid o nbd nbr npay r1] ∧
      (correctionEntry s oid o nbd nbr npay r1).bottles_delta =
        some ((nbd - nbr) - bottlesSumForOrder s.ledger oid) ∧
      (correctionEntry s oid o nbd nbr npay r1).balance_delta =
        some (npay - balanceSumForOrder s.ledger oid) ∧
      ∃ s2,
        correct s1 oid nbd nbr npay r2 = .ok s2 ∧
        s2.ledger = s1.ledger ++
          [correctionEntry s1 oid
            { o with bottles_delivered := nbd, bottles_returned := nbr }
            nbd nbr npay r2] ∧
        (correctionEntry s1 oid
          { o with bottles_delivered := nbd, bottles_returned := nbr }
          nbd nbr npay r2).bottles_delta = some 0 ∧
        (correctionEntry s1 oid
          { o with bottles_delivered := nbd, bottles_returned := nbr }
          nbd nbr npay r2).balance_delta = some 0 ∧
        (∀ cid, bottlesSumFor s2.ledger cid = bottlesSumFor s1.ledger cid ∧
                balanceSumFor s2.ledger cid = balanceSumFor s1.ledger cid) := by
  obtain ⟨o, s2', hfo, hq, hdel0, hst, hpost, hs1⟩ := correct_ok_inv hc1
  have hframe := postEntry_frame hpost
  have hoid : o.id = oid := (findOrder_eq_some hfo).2
  have hreach1 : Reachable s1 :=
    Reachable.step hs ⟨Op.correct oid nbd nbr npay r1, hc1⟩
  have hinv1 := Reachable_inv hreach1
  have hs1orders : s1.orders = updateOrder s.orders
      { o with bottles_delivered := nbd, bottles_returned := nbr } := by
    rw [hs1]
    show updateOrder s2'.orders _ = _
    rw [hframe.2.1]
  have hs1ledger : s1.ledger = s.ledger ++ [correctionEntry s oid o nbd nbr npay r1] := by
    rw [hs1]
    show s2'.ledger = _
    exact hframe.1
  have hfo1 : findOrder s1.orders oid =
      some { o with bottles_delivered := nbd, bottles_returned := nbr } := by
    rw [hs1orders]
    exact findOrder_updateOrder hfo
      (show ({ o with bottles_delivered := nbd, bottles_returned := nbr } :
        Order).id = oid from hoid)
  have hsum1b : bottlesSumForOrder s1.ledger oid = nbd - nbr := by
    rw [hs1ledger, bottlesSumForOrder_append]
    simp only [bottlesSumForOrder_cons, bottlesSumForOrder_nil]
    rw [if_pos (show (correctionEntry s oid o nbd nbr npay r1).order_id = oid from rfl)]
    show bottlesSumForOrder s.ledger oid +
      (((nbd - nbr) - bottlesSumForOrder s.ledger oid) + 0) = nbd - nbr
    ring
  have hsum1bal : balanceSumForOrder s1.ledger oid = npay := by
    rw [hs1ledger, balanceSumForOrder_append]
    simp only [balanceSumForOrder_cons, balanceSumForOrder_nil]
    rw [if_pos (show (correctionEntry s oid o nbd nbr npay r1).order_id = oid from rfl)]
    show balanceSumForOrder s.ledger oid +
      ((npay - balanceSumForOrder s.ledger oid) + 0) = npay
    ring
  have he2b : (correctionEntry s1 oid
      { o with bottles_delivered := nbd, bottles_returned := nbr }
      nbd nbr npay r2).bottles_delta = some 0 := by
    show some ((nbd - nbr) - bottlesSumForOrder s1.ledger oid) = some 0
    rw [hsum1b, sub_self]
  have he2bal : (correctionEntry s1 oid
      { o with bottles_delivered := nbd, bottles_returned := nbr }
      nbd nbr npay r2).balance_delta = some 0 := by
    show some (npay - balanceSumForOrder s1.ledger oid) = some 0
    rw [hsum1bal, sub_self]
  have he2getD : (correctionEntry s1 oid
      { o with bottles_delivered := nbd, bottles_returned := nbr }
      nbd nbr npay r2).bottles_delta.getD 0 = 0 := by
    rw [he2b]
    rfl
  have he2getDbal : (correctionEntry s1 oid
      { o with bottles_delivered := nbd, bottles_returned := nbr }
      nbd nbr npay r2).balance_delta.getD 0 = 0 := by
    rw [he2bal]
    rfl
  have h3 : ∀ cid,
      (correctionEntry s1 oid
        { o with bottles_delivered := nbd, bottles_returned := nbr }
        nbd nbr npay r2).customer_id = some cid →
      ∃ c, findCustomer s1.customers cid = some c ∧
        -100 ≤ c.bottles_in_hand +
          (correctionEntry s1 oid
            { o with bottles_delivered := nbd, bottles_returned := nbr }
            nbd nbr npay r2).bottles_delta.getD 0 ∧
        c.bottles_in_hand +
          (correctionEntry s1 oid
            { o with bottles_delivered := nbd, bottles_returned := nbr }
            nbd nbr npay r2).bottles_delta.getD 0 ≤ 10000 := by
    intro cid hcid
    have hcid' : o.customer_id = some cid := hcid
    have hmem1 : ({ o with bottles_delivered := nbd, bottles_returned := nbr } :
        Order) ∈ s1.orders := (findOrder_eq_some hfo1).1
    have hcin1 : cid ∈ s1.customers.map (fun c => c.id) :=
      hinv1.orderCustKnown _ hmem1 cid hcid'
    have hsome1 : (findCustomer s1.customers cid).isSome :=
      findCustomer_isSome_iff.mpr hcin1
    obtain ⟨c1, hc1'⟩ : ∃ c1, findCustomer s1.customers cid = some c1 := by
      cases hx : findCustomer s1.customers cid
      · rw [hx] at hsome1
        exact absurd hsome1 (by simp)
      · exact ⟨_, rfl⟩
    have hc1mem := (findCustomer_eq_some hc1').1
    refine ⟨c1, hc1', ?_, ?_⟩
    · rw [he2getD, add_zero]
      exact hinv1.bottlesLower c1 hc1mem
    · rw [he2getD, add_zero]
      exact hinv1.bottlesUpper c1 hc1mem
  obtain ⟨s3, hpost2⟩ := postEntry_succeeds
    (e := correctionEntry s1 oid
      { o with bottles_delivered := nbd, bottles_returned := nbr } nbd nbr npay r2)
    (Or.inl (fun hx => Option.noConfusion hx))
    (by
      intro hx
      rw [show (correctionEntry s1 oid
        { o with bottles_delivered := nbd, bottles_returned := nbr }
        nbd nbr npay r2).order_id = oid from rfl, hfo1] at hx
      exact Option.noConfusion hx)
    h3
  have hframe2 := postEntry_frame hpost2
  have hc2 : correct s1 oid nbd nbr npay r2 =
      .ok { s3 with
            orders := (updateOrder s3.orders
              { { o with bottles_delivered := nbd, bottles_returned := nbr } with
                bottles_delivered := nbd, bottles_returned := nbr }),
            next_entry_id := s3.next_entry_id + 1 } := by
    unfold correct
    rw [hfo1]
    dsimp only
    rw [if_neg hq]
    rw [if_neg (show ¬(({ o with bottles_delivered := nbd, bottles_returned := nbr } :
        Order).is_deleted = true) from by
      rw [show ({ o with bottles_delivered := nbd, bottles_returned := nbr } :
        Order).is_deleted = o.is_deleted from rfl, hdel0]
      exact Bool.false_ne_true)]
    rw [if_pos (show ({ o with bottles_delivered := nbd, bottles_returned := nbr } :
        Order).status = OrderStatus.DELIVERED from hst)]
    rw [hpost2]
  refine ⟨o, hfo, hs1ledger, rfl, rfl, _, hc2, ?_, he2b, he2bal, ?_⟩
  · show s3.ledger = _
    exact hframe2.1
  · intro cid
    constructor
    · show bottlesSumFor s3.ledger cid = _
      rw [hframe2.1, bottlesSumFor_append]
      simp only [bottlesSumFor_cons, bottlesSumFor_nil]
      by_cases hoc : (correctionEntry s1 oid
          { o with bottles_delivered := nbd, bottles_returned := nbr }
          nbd nbr npay r2).customer_id = some cid
      · rw [if_pos hoc, he2getD]
        ring
      · rw [if_neg hoc]
        ring
    · show balanceSumFor s3.ledger cid = _
      rw [hframe2.1, balanceSumFor_append]
      simp only [balanceSumFor_cons, balanceSumFor_nil]
      by_cases hoc : (correctionEntry s1 oid
          { o with bottles_delivered := nbd, bottles_returned := nbr }
          nbd nbr npay r2).customer_id = some cid
      · rw [if_pos hoc, he2getDbal]
        ring
      · rw [if_neg hoc]
        ring

/-- Witness for C5 at the concrete correction of `exS4` to 6 bottles /
30.00, repeated once. -/
theorem C5_witness :
    ∃ o,
      findOrder exS4.orders 1 = some o ∧
      exS5.ledger = exS4.ledger ++ [correctionEntry exS4 1 o 6 0 3000 "fix"] ∧
      (correctionEntry exS4 1 o 6 0 3000 "fix").bottles_delta =
        some ((6 - 0) - bottlesSumForOrder exS4.ledger 1) ∧
      (correctionEntry exS4 1 o 6 0 3000 "fix").balance_delta =
        some (3000 - balanceSumForOrder exS4.ledger 1) ∧
      ∃ s2,
        correct exS5 1 6 0 3000 "fix again" = .ok s2 ∧
        s2.ledger = exS5.ledger ++
          [correctionEntry exS5 1
            { o with bottles_delivered := 6, bottles_returned := 0 }
            6 0 3000 "fix again"] ∧
        (correctionEntry exS5 1
          { o with bottles_delivered := 6, bottles_returned := 0 }
          6 0 3000 "fix again").bottles_delta = some 0 ∧
        (correctionEntry exS5 1
          { o with bottles_delivered := 6, bottles_returned := 0 }
          6 0 3000 "fix again").balance_delta = some 0 ∧
        (∀ cid, bottlesSumFor s2.ledger cid = bottlesSumFor exS5.ledger cid ∧
                balanceSumFor s2.ledger cid = balanceSumFor exS5.ledger cid) :=
  C5_correction_posts_difference exS4 exS5 1 6 0 3000 "fix" "fix again"
    Reachable_exS4 rfl

end H2Open
